import Mathlib

/-!
Verification of the flyer layout/rendering engine (`src/api/flyer.py`).

This file is a shallow embedding, in Lean 4, of the flyer-generation core of the
repository: the module-level helpers (`_hex_to_rgb`, `_darken`, `_resolve_image`,
`_find_logo`, `PAGE_SIZES`) and the single big renderer `generate_flyer_pdf`,
together with a faithful model of the parts of its external collaborators that the
verified claims depend on (CPython `textwrap.wrap` with default options, and the
timestamp behaviour of the PDF serializer).

Modelling conventions:
* Device units (reportlab points) are exact rationals; `mm = 72/25.4 = 360/127`.
* Drawing is modelled as an explicit list of operations (`Op`), each tagged with the
  visual block (`BlockId`) that emitted it; the renderer threads a state `RState`
  holding the shared vertical cursor and the accumulated operations.
* Filesystem lookups, image decoding/drawing success, QR-encoder capacity, font
  metrics (`stringWidth`) and `textwrap.shorten` are oracles packaged in `Env`;
  the search logic itself (`_resolve_image`, `_find_logo`) is embedded.
* Python exceptions that `generate_flyer_pdf` does not catch are modelled by
  `Except RenderError`; exceptions caught by its `try/except` blocks are modelled
  by the corresponding skip behaviour.
-/

namespace Flyer

/-- One reportlab millimeter in device units: `mm = 72 / 25.4`. -/
def mm : ℚ := 360 / 127

/-- One reportlab centimeter in device units (defined in the source's imports). -/
def cm : ℚ := 3600 / 127

/-- reportlab `A4` page size in device units: `(210*mm, 297*mm)`. -/
def A4 : ℚ × ℚ := (210 * mm, 297 * mm)

/-- reportlab `A5` page size in device units: `(148*mm, 210*mm)`. -/
def A5 : ℚ × ℚ := (148 * mm, 210 * mm)

/-- reportlab `A6` page size in device units: `(105*mm, 148*mm)`. -/
def A6 : ℚ × ℚ := (105 * mm, 148 * mm)

/-- The `PAGE_SIZES` dict of `flyer.py`: `{"a4": A4, "a5": A5, "a6": A6}`;
`PAGE_SIZES.get key` semantics (missing key gives `none`). -/
def PAGE_SIZES (s : String) : Option (ℚ × ℚ) :=
  if s = "a4" then some A4
  else if s = "a5" then some A5
  else if s = "a6" then some A6
  else none

/-- reportlab `landscape(pagesize)`: returns `(max, min)` of the two dimensions
(swaps them exactly when the first is smaller). -/
def landscape (p : ℚ × ℚ) : ℚ × ℚ :=
  if p.1 < p.2 then (p.2, p.1) else p

/-- Page-size resolution of `generate_flyer_pdf` (lines 188-192):
`PAGE_SIZES.get(config.page_size, A4)`, then `landscape` applied exactly when
`config.orientation == "landscape"`. -/
def resolvePage (pageSize orientation : String) : ℚ × ℚ :=
  let base := (PAGE_SIZES pageSize).getD A4
  if orientation = "landscape" then landscape base else base

/-- The uniform scale factor (line 207): `min(page_w / A4[0], page_h / A4[1])`. -/
def scaleFor (pageW pageH : ℚ) : ℚ :=
  min (pageW / A4.1) (pageH / A4.2)

/-- Python `int(q)` truncation toward zero on a rational. -/
def pyInt (q : ℚ) : ℤ :=
  if q < 0 then ⌈q⌉ else ⌊q⌋

/-! ## Colors (`_hex_to_rgb`, `_darken`) -/

/-- An RGBA color as built via `reportlab.lib.colors.Color` (components are the
raw float arguments; alpha defaults to 1). -/
structure RColor where
  r : ℚ
  g : ℚ
  b : ℚ
  a : ℚ := 1
deriving DecidableEq, Repr

/-- Value of a single hexadecimal digit, upper or lower case (the digits accepted
by Python `int(_, 16)` on a two-character slice of hex digits). -/
def hexVal (c : Char) : Option ℕ :=
  if '0' ≤ c ∧ c ≤ '9' then some (c.toNat - 48)
  else if 'a' ≤ c ∧ c ≤ 'f' then some (c.toNat - 87)
  else if 'A' ≤ c ∧ c ≤ 'F' then some (c.toNat - 55)
  else none

/-- Python `int(s, 16)` on a two-character string of hex digits. -/
def hexPair (a b : Char) : Option ℕ :=
  match hexVal a, hexVal b with
  | some x, some y => some (16 * x + y)
  | _, _ => none

/-- The fallback blue returned by `_hex_to_rgb` for strings that are not 6
characters long after `lstrip("#")`. -/
def fallbackBlue : ℚ × ℚ × ℚ := (12/100, 44/100, 73/100)

/-- `_hex_to_rgb` (lines 84-90).  `h = hex_color.lstrip("#")` strips every
leading `#`; a string whose stripped form is not exactly 6 characters yields the
fallback blue; a 6-character stripped form is parsed with `int(h[i:i+2], 16)`,
which raises `ValueError` (modelled as `.error ()`) on non-hex characters. -/
def hexToRgb (hexColor : String) : Except Unit (ℚ × ℚ × ℚ) :=
  match hexColor.data.dropWhile (· = '#') with
  | [c0, c1, c2, c3, c4, c5] =>
    match hexPair c0 c1, hexPair c2 c3, hexPair c4 c5 with
    | some r, some g, some b => .ok ((r : ℚ) / 255, (g : ℚ) / 255, (b : ℚ) / 255)
    | _, _, _ => .error ()
  | _ => .ok fallbackBlue

/-- `_darken` (lines 93-94): `tuple(max(0, c * factor) for c in rgb)`. -/
def darken (rgb : ℚ × ℚ × ℚ) (factor : ℚ) : ℚ × ℚ × ℚ :=
  (max 0 (rgb.1 * factor), max 0 (rgb.2.1 * factor), max 0 (rgb.2.2 * factor))

/-! ## Text layout: CPython `textwrap.wrap` with default options

The renderer calls `textwrap.wrap(text, width=max_chars)` with all `TextWrapper`
options at their defaults (`expand_tabs=True`, `replace_whitespace=True`,
`drop_whitespace=True`, `break_long_words=True`, empty indents, no `max_lines`).
The model below follows CPython's `TextWrapper._munge_whitespace` /
`_wrap_chunks` / `_handle_long_word`.  One simplification: the chunk splitter
splits at whitespace runs only, so the model is faithful for input texts that do
not contain hyphens (CPython's default `break_on_hyphens=True` additionally
splits words after internal hyphens); the theorems below that would be affected
carry a no-hyphen hypothesis. -/

/-- The whitespace characters of `string.whitespace` / `textwrap`'s
`_whitespace = '\t\n\x0b\x0c\r '`. -/
def isPySpace (c : Char) : Bool :=
  c = ' ' || c = '\t' || c = '\n' || c = '\x0b' || c = '\x0c' || c = '\r'

/-- Python `str.expandtabs(8)`: each tab is replaced by spaces up to the next
multiple of 8; `\n`/`\r` reset the column. -/
def expandTabs : ℕ → List Char → List Char
  | _, [] => []
  | col, c :: cs =>
    if c = '\t' then
      List.replicate (8 - col % 8) ' ' ++ expandTabs (col + (8 - col % 8)) cs
    else if c = '\n' ∨ c = '\r' then c :: expandTabs 0 cs
    else c :: expandTabs (col + 1) cs

/-- `TextWrapper._munge_whitespace`: expand tabs, then replace every whitespace
character by a plain space. -/
def munge (t : List Char) : List Char :=
  (expandTabs 0 t).map (fun c => if isPySpace c then ' ' else c)

/-- A chunk of text: a maximal run of whitespace or of non-whitespace. -/
abbrev Chunk := List Char

/-- Split a text into maximal runs of same-class characters (whitespace versus
non-whitespace), preserving all characters (`TextWrapper._split` for inputs
without hyphens). -/
def chunksOf : List Char → List Chunk
  | [] => []
  | c :: cs =>
    match chunksOf cs with
    | [] => [[c]]
    | [] :: rest => [c] :: [] :: rest
    | (d :: ds) :: rest =>
      if isPySpace c = isPySpace d then (c :: d :: ds) :: rest
      else [c] :: (d :: ds) :: rest

/-- Total character length of a chunk list. -/
def sumLen (chs : List Chunk) : ℕ := (chs.map List.length).sum

/-- A chunk that `str.strip()` maps to the empty string (all whitespace). -/
def isSpaceChunk (ch : Chunk) : Bool := ch.all isPySpace

/-- The greedy inner loop of `_wrap_chunks`: starting from accumulated length
`k`, move whole chunks to the current line while the line stays within `w`. -/
def fitTake (w : ℕ) : ℕ → List Chunk → List Chunk × List Chunk
  | _, [] => ([], [])
  | k, c :: cs =>
    if k + c.length ≤ w then
      let p := fitTake w (k + c.length) cs
      (c :: p.1, p.2)
    else ([], c :: cs)

/-- `TextWrapper._handle_long_word` (with `break_long_words=True` and no
hyphens): if the next chunk is longer than the width, chop off exactly the space
left on the current line (at least one character when the width is degenerate)
and push the rest back. -/
def splitLong (w : ℕ) (cur : List Chunk) (curLen : ℕ) :
    List Chunk → List Chunk × List Chunk
  | [] => (cur, [])
  | c :: rtl =>
    if w < c.length then
      let spaceLeft := if w < 1 then 1 else w - curLen
      (cur ++ [c.take spaceLeft], c.drop spaceLeft :: rtl)
    else (cur, c :: rtl)

/-- `drop_whitespace` at the end of a line: delete the last chunk of the current
line if it strips to nothing. -/
def dropTrailWs (cur : List Chunk) : List Chunk :=
  match cur.getLast? with
  | some ch => if isSpaceChunk ch then cur.dropLast else cur
  | none => cur

/-- `drop_whitespace` at the start of a line: drop a leading whitespace chunk,
but only when at least one line was already produced. -/
def dropLead (hasLines : Bool) (chs : List Chunk) : List Chunk :=
  match chs with
  | c :: rest => if hasLines && isSpaceChunk c then rest else c :: rest
  | [] => []

/-- The chunks of the current line after greedy filling, long-word handling and
trailing-whitespace dropping (the body of one `_wrap_chunks` iteration, minus
the leading-whitespace drop). -/
def lineCur (w : ℕ) (chs1 : List Chunk) : List Chunk :=
  dropTrailWs (splitLong w (fitTake w 0 chs1).1 (sumLen (fitTake w 0 chs1).1)
    (fitTake w 0 chs1).2).1

/-- The chunks left over for the following lines by one `_wrap_chunks`
iteration (minus the leading-whitespace drop). -/
def lineRest (w : ℕ) (chs1 : List Chunk) : List Chunk :=
  (splitLong w (fitTake w 0 chs1).1 (sumLen (fitTake w 0 chs1).1)
    (fitTake w 0 chs1).2).2

/-- One iteration of the `while chunks` loop of `_wrap_chunks`: optionally drop
a leading whitespace chunk (only when a line was already produced), greedily
fill the line, handle an over-long next chunk, drop trailing whitespace, and
emit the line if anything remains.  Returns the produced line (if any) and the
remaining chunks. -/
def lineStep (w : ℕ) (hasLines : Bool) (chs : List Chunk) :
    Option (List Char) × List Chunk :=
  let chs1 := dropLead hasLines chs
  (if (lineCur w chs1).isEmpty then none else some (lineCur w chs1).flatten,
   lineRest w chs1)

/-- Termination measure for the wrapping loop. -/
def msr (chs : List Chunk) : ℕ := (chs.map (fun c => c.length + 1)).sum

theorem sumLen_cons (c : Chunk) (cs : List Chunk) :
    sumLen (c :: cs) = c.length + sumLen cs := by
  simp [sumLen]

theorem msr_cons (c : Chunk) (cs : List Chunk) :
    msr (c :: cs) = c.length + 1 + msr cs := by
  simp [msr]

theorem fitTake_append (w : ℕ) :
    ∀ (chs : List Chunk) (k : ℕ),
      (fitTake w k chs).1 ++ (fitTake w k chs).2 = chs := by
  intro chs
  induction chs with
  | nil => intro k; simp [fitTake]
  | cons c cs ih =>
    intro k
    by_cases h : k + c.length ≤ w
    · simp only [fitTake, if_pos h]
      simpa using ih (k + c.length)
    · simp [fitTake, if_neg h]

theorem msr_fitTake_rest (w : ℕ) :
    ∀ (chs : List Chunk) (k : ℕ), msr (fitTake w k chs).2 ≤ msr chs := by
  intro chs
  induction chs with
  | nil => intro k; simp [fitTake]
  | cons c cs ih =>
    intro k
    by_cases h : k + c.length ≤ w
    · simp only [fitTake, if_pos h]
      calc msr (fitTake w (k + c.length) cs).2 ≤ msr cs := ih _
        _ ≤ msr (c :: cs) := by simp [msr_cons]
    · simp [fitTake, if_neg h]

theorem msr_splitLong_rest (w : ℕ) (cur : List Chunk) (curLen : ℕ)
    (rest : List Chunk) : msr (splitLong w cur curLen rest).2 ≤ msr rest := by
  cases rest with
  | nil => simp [splitLong]
  | cons c rtl =>
    by_cases h : w < c.length
    · simp only [splitLong, if_pos h, msr_cons]
      have : (c.drop (if w < 1 then 1 else w - curLen)).length ≤ c.length := by
        simp [List.length_drop]
      omega
    · simp [splitLong, if_neg h]

theorem msr_lineRest_le (w : ℕ) (chs1 : List Chunk) :
    msr (lineRest w chs1) ≤ msr chs1 := by
  unfold lineRest
  calc msr (splitLong w (fitTake w 0 chs1).1 (sumLen (fitTake w 0 chs1).1)
        (fitTake w 0 chs1).2).2
      ≤ msr (fitTake w 0 chs1).2 := msr_splitLong_rest _ _ _ _
    _ ≤ msr chs1 := msr_fitTake_rest w chs1 0

/-- On a nonempty chunk list, one iteration body strictly shrinks the measure:
either the head chunk is moved to the line, or it is over-long and split. -/
theorem msr_lineRest_lt (w : ℕ) (c : Chunk) (cs : List Chunk) :
    msr (lineRest w (c :: cs)) < msr (c :: cs) := by
  unfold lineRest
  by_cases hfit : 0 + c.length ≤ w
  · -- the head chunk is consumed by the greedy loop
    simp only [fitTake, if_pos hfit]
    calc msr (splitLong w _ _ (fitTake w (0 + c.length) cs).2).2
        ≤ msr (fitTake w (0 + c.length) cs).2 := msr_splitLong_rest _ _ _ _
      _ ≤ msr cs := msr_fitTake_rest w cs _
      _ < msr (c :: cs) := by simp [msr_cons]
  · -- the head chunk is over-long: `splitLong` chops at least one character
    have hlen : w < c.length := by omega
    simp only [fitTake, if_neg hfit, splitLong, if_pos hlen, sumLen,
      List.map_nil, List.sum_nil, msr_cons]
    have : (c.drop (if w < 1 then 1 else w - 0)).length < c.length := by
      by_cases hw : w < 1
      · simp only [if_pos hw, List.length_drop]; omega
      · simp only [if_neg hw, List.length_drop]; omega
    omega

/-- The remaining chunks of one wrap iteration are strictly smaller in measure
(ensures termination of the wrapping loop). -/
theorem lineStep_msr (w : ℕ) (b : Bool) (c : Chunk) (cs : List Chunk) :
    msr (lineStep w b (c :: cs)).2 < msr (c :: cs) := by
  unfold lineStep dropLead
  by_cases hdrop : (b && isSpaceChunk c) = true
  · simp only [hdrop, if_pos rfl]
    calc msr (lineRest w cs) ≤ msr cs := msr_lineRest_le w cs
      _ < msr (c :: cs) := by simp [msr_cons]
  · simp only [hdrop, Bool.false_eq_true, if_false]
    exact msr_lineRest_lt w c cs

/-- The `while chunks:` loop of `TextWrapper._wrap_chunks` (with both indents
empty).  `hasLines` records whether a line has been emitted already. -/
def wrapLoop (w : ℕ) (chs : List Chunk) (hasLines : Bool) : List (List Char) :=
  match chs with
  | [] => []
  | c :: cs =>
    match h : lineStep w hasLines (c :: cs) with
    | (some l, rest) => l :: wrapLoop w rest true
    | (none, rest) => wrapLoop w rest hasLines
termination_by msr chs
decreasing_by
  · have hm := lineStep_msr w hasLines c rtl
    rw [h] at hm
    simpa using hm
  · have hm := lineStep_msr w hasLines c rtl
    rw [h] at hm
    simpa using hm

/-- Fuel-driven evaluator for `wrapLoop` (structural recursion, so that
concrete runs reduce inside the kernel); `wrapGo_eq_wrapLoop` shows it computes
`wrapLoop` whenever the fuel is at least the measure of the chunk list. -/
def wrapGo (w : ℕ) : ℕ → List Chunk → Bool → List (List Char)
  | 0, _, _ => []
  | _ + 1, [], _ => []
  | fuel + 1, c :: cs, b =>
    match lineStep w b (c :: cs) with
    | (some l, rest) => l :: wrapGo w fuel rest true
    | (none, rest) => wrapGo w fuel rest b

theorem wrapGo_eq_wrapLoop (w : ℕ) : ∀ (fuel : ℕ) (chs : List Chunk) (b : Bool),
    msr chs ≤ fuel → wrapGo w fuel chs b = wrapLoop w chs b := by
  intro fuel
  induction fuel with
  | zero =>
    intro chs b h
    cases chs with
    | nil => simp [wrapGo, wrapLoop]
    | cons c cs =>
      rw [msr_cons] at h
      omega
  | succ n ih =>
    intro chs b h
    cases chs with
    | nil => simp [wrapGo, wrapLoop]
    | cons c cs =>
      rcases hls : lineStep w b (c :: cs) with ⟨o, rest⟩
      have h2 : msr rest ≤ n := by
        have hmsr := lineStep_msr w b c cs
        rw [hls] at hmsr
        simp only at hmsr
        rw [msr_cons] at h hmsr
        omega
      cases o with
      | some l =>
        simp only [wrapGo, hls]
        rw [wrapLoop]
        split
        · rename_i l3 rest3 heq
          rw [hls] at heq
          injection heq with ha hb
          injection ha with ha
          subst ha
          subst hb
          rw [ih rest true h2]
        · rename_i rest3 heq
          rw [hls] at heq
          simp at heq
      | none =>
        simp only [wrapGo, hls]
        rw [wrapLoop]
        split
        · rename_i l3 rest3 heq
          rw [hls] at heq
          simp at heq
        · rename_i rest3 heq
          rw [hls] at heq
          injection heq with ha hb
          subst hb
          exact ih rest b h2

/-- `textwrap.wrap(text, width)` with all defaults, for hyphen-free inputs.
The source never calls it with a non-positive width (and CPython raises
`ValueError` there); that case is mapped to `[]`. -/
def pyWrap (text : String) (width : ℕ) : List String :=
  if width = 0 then []
  else
    (wrapGo width (msr (chunksOf (munge text.data)))
      (chunksOf (munge text.data)) false).map (fun l => ⟨l⟩)

theorem pyWrap_eq (text : String) (width : ℕ) (h : width ≠ 0) :
    pyWrap text width
      = (wrapLoop width (chunksOf (munge text.data)) false).map (fun l => ⟨l⟩) := by
  rw [pyWrap, if_neg h, wrapGo_eq_wrapLoop width _ _ false (le_refl _)]

/-- The words of a chunk list: its non-whitespace chunks. -/
def wordChunks (chs : List Chunk) : List Chunk :=
  chs.filter (fun ch => !isSpaceChunk ch)

/-- The words of a string: maximal non-whitespace runs (Python `str.split()`). -/
def pyWords (s : String) : List String :=
  (wordChunks (chunksOf s.data)).map (fun l => ⟨l⟩)

/-! ### Line-length bound of the wrap model -/

theorem sumLen_append (a b : List Chunk) :
    sumLen (a ++ b) = sumLen a + sumLen b := by
  simp [sumLen]

theorem fitTake_bound (w : ℕ) :
    ∀ (chs : List Chunk) (k : ℕ), k ≤ w → k + sumLen (fitTake w k chs).1 ≤ w := by
  intro chs
  induction chs with
  | nil => intro k hk; simpa [fitTake, sumLen] using hk
  | cons c cs ih =>
    intro k hk
    by_cases h : k + c.length ≤ w
    · have := ih (k + c.length) h
      simp only [fitTake, if_pos h, sumLen_cons]
      omega
    · simp only [fitTake, if_neg h, sumLen]
      simpa using hk

theorem sumLen_splitLong_cur (w : ℕ) (cur : List Chunk) (rest : List Chunk)
    (hw : 1 ≤ w) (hcur : sumLen cur ≤ w) :
    sumLen (splitLong w cur (sumLen cur) rest).1 ≤ w := by
  cases rest with
  | nil => simpa [splitLong] using hcur
  | cons c rtl =>
    by_cases h : w < c.length
    · have hw1 : ¬ w < 1 := by omega
      simp only [splitLong, if_pos h, if_neg hw1, sumLen_append]
      have h2 : sumLen [c.take (w - sumLen cur)] = (c.take (w - sumLen cur)).length := by
        simp [sumLen]
      have h3 : (c.take (w - sumLen cur)).length ≤ w - sumLen cur := by
        simp [List.length_take]
      rw [h2]
      omega
    · simpa [splitLong, if_neg h] using hcur

theorem sumLen_dropTrailWs_le (cur : List Chunk) :
    sumLen (dropTrailWs cur) ≤ sumLen cur := by
  unfold dropTrailWs
  cases hg : cur.getLast? with
  | none => simp
  | some ch =>
    by_cases hsp : isSpaceChunk ch = true
    · simp only [hsp, if_pos rfl]
      have hne : cur ≠ [] := by
        intro h; rw [h] at hg; simp at hg
      calc sumLen cur.dropLast ≤ sumLen cur.dropLast + ch.length := Nat.le_add_right _ _
        _ = sumLen cur := by
            conv_rhs => rw [← List.dropLast_append_getLast hne]
            rw [sumLen_append, List.getLast?_eq_getLast cur hne] at *
            simp only [Option.some.injEq] at hg
            simp [hg, sumLen]
    · simp [hsp]

theorem sumLen_lineCur_le (w : ℕ) (hw : 1 ≤ w) (chs1 : List Chunk) :
    sumLen (lineCur w chs1) ≤ w := by
  unfold lineCur
  have h1 : sumLen (fitTake w 0 chs1).1 ≤ w := by
    have := fitTake_bound w chs1 0 (by omega)
    omega
  calc sumLen (dropTrailWs (splitLong w (fitTake w 0 chs1).1
        (sumLen (fitTake w 0 chs1).1) (fitTake w 0 chs1).2).1)
      ≤ sumLen (splitLong w (fitTake w 0 chs1).1
        (sumLen (fitTake w 0 chs1).1) (fitTake w 0 chs1).2).1 :=
        sumLen_dropTrailWs_le _
    _ ≤ w := sumLen_splitLong_cur w _ _ hw h1

/-! ### Chunker correctness -/

/-- A well-formed chunk: nonempty and homogeneous (all whitespace or all
non-whitespace). -/
def goodChunk (ch : Chunk) : Prop :=
  ch ≠ [] ∧ (ch.all isPySpace = true ∨ ch.all (fun c => !isPySpace c) = true)

/-- Adjacent chunks have different classes. -/
def AltChunks (chs : List Chunk) : Prop :=
  List.Chain' (fun x y => isSpaceChunk x ≠ isSpaceChunk y) chs

/-- The invariant of chunk lists handled by the wrapping loop. -/
structure ChunksInv (chs : List Chunk) : Prop where
  good : ∀ ch ∈ chs, goodChunk ch
  alt : AltChunks chs

theorem goodChunk_mem_class {ch : Chunk} (hg : goodChunk ch) {c : Char}
    (hc : c ∈ ch) : isPySpace c = isSpaceChunk ch := by
  rcases hg with ⟨hne, hsp | hns⟩
  · have h1 : isPySpace c = true := by
      rw [List.all_eq_true] at hsp
      exact hsp c hc
    have h2 : isSpaceChunk ch = true := hsp
    rw [h1, h2]
  · have h1 : isPySpace c = false := by
      rw [List.all_eq_true] at hns
      simpa using hns c hc
    have h2 : isSpaceChunk ch = false := by
      by_contra hcon
      rw [Bool.not_eq_false, isSpaceChunk, List.all_eq_true] at hcon
      exact absurd (hcon c hc) (by simp [h1])
    rw [h1, h2]

theorem chunksOf_flatten : ∀ l : List Char, (chunksOf l).flatten = l := by
  intro l
  induction l with
  | nil => simp [chunksOf]
  | cons c cs ih =>
    cases h : chunksOf cs with
    | nil => simp_all [chunksOf, h]
    | cons hd rest =>
      cases hd with
      | nil =>
        rw [h] at ih
        simp only [chunksOf, h]
        simpa using ih
      | cons d ds =>
        rw [h] at ih
        by_cases hcl : isPySpace c = isPySpace d
        · simp only [chunksOf, h, if_pos hcl]
          simpa using ih
        · simp only [chunksOf, h, if_neg hcl]
          simpa using ih

theorem good_chunksOf : ∀ l : List Char, ∀ ch ∈ chunksOf l, goodChunk ch := by
  intro l
  induction l with
  | nil => simp [chunksOf]
  | cons c cs ih =>
    intro ch hch
    cases h : chunksOf cs with
    | nil =>
      simp only [chunksOf, h, List.mem_singleton] at hch
      subst hch
      refine ⟨by simp, ?_⟩
      by_cases hc : isPySpace c = true
      · exact Or.inl (by simp [hc])
      · exact Or.inr (by simp [Bool.not_eq_true] at hc; simp [hc])
    | cons hd rest =>
      rw [h] at ih
      cases hd with
      | nil =>
        -- a leading empty chunk in the recursive result contradicts the IH
        exact absurd (ih [] (by simp)) (by simp [goodChunk])
      | cons d ds =>
        have hdds : goodChunk (d :: ds) := ih (d :: ds) (by simp)
        by_cases hcl : isPySpace c = isPySpace d
        · simp only [chunksOf, h, if_pos hcl] at hch
          rcases List.mem_cons.mp hch with hcase | hcase
          · subst hcase
            refine ⟨by simp, ?_⟩
            rcases hdds.2 with hsp | hns
            · refine Or.inl ?_
              rw [List.all_eq_true] at hsp ⊢
              intro x hx
              rcases List.mem_cons.mp hx with hx2 | hx2
              · subst hx2; rw [hcl]; exact hsp d (by simp)
              · exact hsp x hx2
            · refine Or.inr ?_
              rw [List.all_eq_true] at hns ⊢
              intro x hx
              rcases List.mem_cons.mp hx with hx2 | hx2
              · subst hx2
                have hd2 := hns d (by simp)
                simpa [hcl] using hd2
              · exact hns x hx2
          · exact ih ch (by simp [hcase])
        · simp only [chunksOf, h, if_neg hcl] at hch
          rcases List.mem_cons.mp hch with hcase | hcase
          · subst hcase
            refine ⟨by simp, ?_⟩
            by_cases hc : isPySpace c = true
            · exact Or.inl (by simp [hc])
            · exact Or.inr (by simp [Bool.not_eq_true] at hc; simp [hc])
          · exact ih ch hcase

theorem alt_chunksOf : ∀ l : List Char, AltChunks (chunksOf l) := by
  intro l
  induction l with
  | nil => simp [chunksOf, AltChunks]
  | cons c cs ih =>
    cases h : chunksOf cs with
    | nil => simp [chunksOf, h, AltChunks]
    | cons hd rest =>
      rw [h] at ih
      cases hd with
      | nil =>
        exact absurd (good_chunksOf cs [] (h ▸ by simp)) (by simp [goodChunk])
      | cons d ds =>
        have hdds : goodChunk (d :: ds) := good_chunksOf cs (d :: ds) (h ▸ by simp)
        have hdcl : isSpaceChunk (d :: ds) = isPySpace d :=
          (goodChunk_mem_class hdds (by simp)).symm
        by_cases hcl : isPySpace c = isPySpace d
        · simp only [chunksOf, h, if_pos hcl]
          have hccl : isSpaceChunk (c :: d :: ds) = isPySpace c := by
            refine (goodChunk_mem_class ?_ (by simp)).symm
            exact good_chunksOf (c :: cs) (c :: d :: ds)
              (by simp [chunksOf, h, if_pos hcl])
          unfold AltChunks at ih ⊢
          cases rest with
          | nil => simp
          | cons r2 rs =>
            rw [List.chain'_cons] at ih ⊢
            refine ⟨?_, ih.2⟩
            rw [hccl, hcl, ← hdcl]
            exact ih.1
        · simp only [chunksOf, h, if_neg hcl]
          unfold AltChunks at ih ⊢
          rw [List.chain'_cons]
          refine ⟨?_, ih⟩
          have hccl : isSpaceChunk [c] = isPySpace c := by simp [isSpaceChunk]
          rw [hccl, hdcl]
          exact fun hcon => hcl (by simpa using hcon)

theorem chunksOf_inv (l : List Char) : ChunksInv (chunksOf l) :=
  ⟨good_chunksOf l, alt_chunksOf l⟩

/-- Prepending a homogeneous nonempty run whose class differs from the head of
the remaining chunks extends the chunk decomposition by exactly that run. -/
theorem chunksOf_cons (c : Char) (cs : List Char) :
    chunksOf (c :: cs) = match chunksOf cs with
      | [] => [[c]]
      | [] :: rest => [c] :: [] :: rest
      | (d :: ds) :: rest =>
        if isPySpace c = isPySpace d then (c :: d :: ds) :: rest
        else [c] :: (d :: ds) :: rest := rfl

theorem chunksOf_append (cl : Bool) :
    ∀ (ch : Chunk), ch ≠ [] → (∀ c ∈ ch, isPySpace c = cl) →
    ∀ (s : List Char),
      (chunksOf s = [] ∨ ∃ d ds r, chunksOf s = (d :: ds) :: r ∧ isPySpace d ≠ cl) →
      chunksOf (ch ++ s) = ch :: chunksOf s := by
  intro ch
  induction ch with
  | nil => intro h; exact absurd rfl h
  | cons a ch2 ih =>
    intro _ hclass s hshape
    cases ch2 with
    | nil =>
      rw [List.singleton_append, chunksOf_cons]
      rcases hshape with hnil | ⟨d, ds, r, hs, hd⟩
      · rw [hnil]
      · have hne2 : ¬ isPySpace a = isPySpace d := by
          rw [hclass a (by simp)]
          exact fun hcon => hd (by rw [hcon])
        rw [hs]
        simp only [if_neg hne2]
    | cons b ch3 =>
      have hbcl : isPySpace a = isPySpace b := by
        rw [hclass a (by simp), hclass b (by simp)]
      have hrec : chunksOf ((b :: ch3) ++ s) = (b :: ch3) :: chunksOf s :=
        ih (by simp) (fun c hc => hclass c (by simp [hc])) s hshape
      simp only [List.cons_append] at hrec ⊢
      rw [chunksOf_cons, hrec]
      simp only [if_pos hbcl]

/-- The chunk decomposition of the concatenation of a well-formed alternating
chunk list is that list itself. -/
theorem chunksOf_flatten_of_inv :
    ∀ (L : List Chunk), ChunksInv L → chunksOf L.flatten = L := by
  intro L
  induction L with
  | nil => intro _; simp [chunksOf]
  | cons ch rest ih =>
    intro hinv
    have hch : goodChunk ch := hinv.good ch (by simp)
    have hrest : ChunksInv rest := by
      refine ⟨fun x hx => hinv.good x (by simp [hx]), ?_⟩
      have := hinv.alt
      unfold AltChunks at this ⊢
      exact this.tail
    have hrec : chunksOf rest.flatten = rest := ih hrest
    have hshape : chunksOf rest.flatten = [] ∨
        ∃ d ds r, chunksOf rest.flatten = (d :: ds) :: r ∧
          isPySpace d ≠ isSpaceChunk ch := by
      cases rest with
      | nil => exact Or.inl (by simp [chunksOf])
      | cons ch2 r2 =>
        refine Or.inr ?_
        have hch2 : goodChunk ch2 := hinv.good ch2 (by simp)
        obtain ⟨d, ds, hd⟩ : ∃ d ds, ch2 = d :: ds := by
          cases ch2 with
          | nil => exact absurd rfl hch2.1
          | cons d ds => exact ⟨d, ds, rfl⟩
        refine ⟨d, ds, r2, by rw [hrec, hd], ?_⟩
        have h1 : isPySpace d = isSpaceChunk ch2 :=
          goodChunk_mem_class hch2 (by simp [hd])
        have h2 : isSpaceChunk ch ≠ isSpaceChunk ch2 := by
          have := hinv.alt
          unfold AltChunks at this
          rw [List.chain'_cons] at this
          exact this.1
        rw [h1]
        exact fun hcon => h2 hcon.symm
    have hclass : ∀ c ∈ ch, isPySpace c = isSpaceChunk ch :=
      fun c hc => goodChunk_mem_class hch hc
    calc chunksOf (ch :: rest).flatten = chunksOf (ch ++ rest.flatten) := by simp
      _ = ch :: chunksOf rest.flatten :=
          chunksOf_append (isSpaceChunk ch) ch hch.1 hclass rest.flatten hshape
      _ = ch :: rest := by rw [hrec]

/-! ### Word preservation of the wrap model -/

theorem wordChunks_append (a b : List Chunk) :
    wordChunks (a ++ b) = wordChunks a ++ wordChunks b := by
  simp [wordChunks]

theorem wordChunks_cons_space {c : Chunk} (h : isSpaceChunk c = true)
    (cs : List Chunk) : wordChunks (c :: cs) = wordChunks cs := by
  simp [wordChunks, h]

theorem isSpaceChunk_take {c : Chunk} (h : isSpaceChunk c = true) (n : ℕ) :
    isSpaceChunk (c.take n) = true := by
  rw [isSpaceChunk, List.all_eq_true] at h ⊢
  exact fun x hx => h x (List.mem_of_mem_take hx)

theorem isSpaceChunk_drop {c : Chunk} (h : isSpaceChunk c = true) (n : ℕ) :
    isSpaceChunk (c.drop n) = true := by
  rw [isSpaceChunk, List.all_eq_true] at h ⊢
  exact fun x hx => h x (List.mem_of_mem_drop hx)

theorem dropTrailWs_append_space {sp : Chunk} (h : isSpaceChunk sp = true)
    (xs : List Chunk) : dropTrailWs (xs ++ [sp]) = xs := by
  unfold dropTrailWs
  rw [List.getLast?_append]
  simp [h]

theorem wordChunks_dropTrailWs (cur : List Chunk) :
    wordChunks (dropTrailWs cur) = wordChunks cur := by
  unfold dropTrailWs
  cases hg : cur.getLast? with
  | none => rfl
  | some ch =>
    by_cases hsp : isSpaceChunk ch = true
    · simp only [hsp, if_pos rfl]
      have hne : cur ≠ [] := by intro h; rw [h] at hg; simp at hg
      have hcur : cur.dropLast ++ [ch] = cur := by
        have h2 := List.dropLast_append_getLast hne
        rw [List.getLast?_eq_getLast cur hne, Option.some.injEq] at hg
        rw [← hg]
        exact h2
      conv_rhs => rw [← hcur]
      rw [wordChunks_append]
      simp [wordChunks, hsp]
    · simp [hsp]

theorem ChunksInv.append_decomp {a b : List Chunk} (h : ChunksInv (a ++ b)) :
    ChunksInv a ∧ ChunksInv b ∧
      (∀ x ∈ a.getLast?, ∀ y ∈ b.head?, isSpaceChunk x ≠ isSpaceChunk y) := by
  have halt := h.alt
  unfold AltChunks at halt
  rw [List.chain'_append] at halt
  exact ⟨⟨fun ch hch => h.good ch (by simp [hch]), halt.1⟩,
    ⟨fun ch hch => h.good ch (by simp [hch]), halt.2.1⟩, halt.2.2⟩

theorem ChunksInv.of_dropTrailWs {cur : List Chunk} (h : ChunksInv cur) :
    ChunksInv (dropTrailWs cur) := by
  unfold dropTrailWs
  cases hg : cur.getLast? with
  | none => exact h
  | some ch =>
    by_cases hsp : isSpaceChunk ch = true
    · simp only [hsp, if_pos rfl]
      have hne : cur ≠ [] := by intro h2; rw [h2] at hg; simp at hg
      have hcur : cur.dropLast ++ [ch] = cur := by
        have h2 := List.dropLast_append_getLast hne
        rw [List.getLast?_eq_getLast cur hne, Option.some.injEq] at hg
        rw [← hg]
        exact h2
      have := (hcur ▸ h).append_decomp
      exact this.1
    · simpa [hsp] using h

/-- Facts about the line-body of one wrap iteration (after leading-whitespace
dropping): under the invariant and the word-length bound, the leftover chunks
keep both properties, the line chunks keep the invariant, and the words of line
and leftover together are exactly the words of the input. -/
theorem splitLong_facts (w : ℕ) (hw : 1 ≤ w) (cur rest1 : List Chunk)
    (hinv : ChunksInv (cur ++ rest1))
    (hlen : ∀ ch ∈ cur ++ rest1, isSpaceChunk ch = false → ch.length ≤ w) :
    ChunksInv (splitLong w cur (sumLen cur) rest1).2 ∧
    (∀ ch ∈ (splitLong w cur (sumLen cur) rest1).2,
        isSpaceChunk ch = false → ch.length ≤ w) ∧
    ChunksInv (dropTrailWs (splitLong w cur (sumLen cur) rest1).1) ∧
    wordChunks (dropTrailWs (splitLong w cur (sumLen cur) rest1).1) ++
      wordChunks (splitLong w cur (sumLen cur) rest1).2
      = wordChunks (cur ++ rest1) := by
  obtain ⟨hinvCur, hinvRest, hborder⟩ := hinv.append_decomp
  cases rest1 with
  | nil =>
    simp only [splitLong]
    refine ⟨⟨by simp, by simp [AltChunks]⟩, by simp,
      hinvCur.of_dropTrailWs, ?_⟩
    rw [wordChunks_dropTrailWs]
    simp [wordChunks]
  | cons c rtl =>
    by_cases hlong : w < c.length
    · -- the next chunk is over-long; by the length bound it must be whitespace
      have hcsp : isSpaceChunk c = true := by
        by_contra hcon
        rw [Bool.not_eq_true] at hcon
        have := hlen c (by simp) hcon
        omega
      have hsl : (if w < 1 then 1 else w - sumLen cur) < c.length := by
        by_cases hw1 : w < 1
        · simp only [if_pos hw1]; omega
        · simp only [if_neg hw1]; omega
      simp only [splitLong, if_pos hlong]
      have htake : isSpaceChunk (c.take (if w < 1 then 1 else w - sumLen cur)) = true :=
        isSpaceChunk_take hcsp _
      have hdrop : isSpaceChunk (c.drop (if w < 1 then 1 else w - sumLen cur)) = true :=
        isSpaceChunk_drop hcsp _
      have hcur3 : dropTrailWs
          (cur ++ [c.take (if w < 1 then 1 else w - sumLen cur)]) = cur :=
        dropTrailWs_append_space htake cur
      have hdropne : c.drop (if w < 1 then 1 else w - sumLen cur) ≠ [] := by
        intro hcon
        have h3 := congrArg List.length hcon
        rw [List.length_drop, List.length_nil] at h3
        omega
      have hrtl : List.Chain' (fun x y => isSpaceChunk x ≠ isSpaceChunk y) rtl :=
        (List.chain'_cons'.mp hinvRest.alt).2
      have hcrtl : ∀ y ∈ rtl.head?, isSpaceChunk c ≠ isSpaceChunk y :=
        (List.chain'_cons'.mp hinvRest.alt).1
      refine ⟨⟨?_, ?_⟩, ?_, ?_, ?_⟩
      · intro ch hch
        rcases List.mem_cons.mp hch with h | h
        · subst h
          exact ⟨hdropne, Or.inl hdrop⟩
        · exact hinvRest.good ch (by simp [h])
      · unfold AltChunks
        rw [List.chain'_cons']
        refine ⟨?_, hrtl⟩
        intro y hy
        rw [hdrop]
        have := hcrtl y hy
        rw [hcsp] at this
        exact this
      · intro ch hch h2
        rcases List.mem_cons.mp hch with h | h
        · subst h
          rw [hdrop] at h2
          exact absurd h2 (by simp)
        · exact hlen ch (by simp [h]) h2
      · rw [hcur3]
        exact hinvCur
      · rw [hcur3, wordChunks_cons_space hdrop, wordChunks_append,
          wordChunks_cons_space hcsp]
    · -- the next chunk is not over-long: nothing is split
      simp only [splitLong, if_neg hlong]
      refine ⟨hinvRest, fun ch hch h2 => hlen ch (by simp [hch]) h2,
        hinvCur.of_dropTrailWs, ?_⟩
      rw [wordChunks_dropTrailWs, ← wordChunks_append]

/-- The word chunks carried by the optional produced line of one iteration. -/
def lineWords (o : Option (List Char)) : List Chunk :=
  o.elim [] (fun l => wordChunks (chunksOf l))

/-- One full wrap iteration: under the invariant and the word-length bound, the
remaining chunks keep both properties, and the words of the produced line plus
the words of the remaining chunks are exactly the words of the input chunks. -/
theorem lineStep_facts (w : ℕ) (hw : 1 ≤ w) (b : Bool) (chs : List Chunk)
    (hinv : ChunksInv chs)
    (hlen : ∀ ch ∈ chs, isSpaceChunk ch = false → ch.length ≤ w) :
    ChunksInv (lineStep w b chs).2 ∧
    (∀ ch ∈ (lineStep w b chs).2, isSpaceChunk ch = false → ch.length ≤ w) ∧
    lineWords (lineStep w b chs).1 ++ wordChunks (lineStep w b chs).2
      = wordChunks chs := by
  have key : ∀ chs1 : List Chunk, ChunksInv chs1 →
      (∀ ch ∈ chs1, isSpaceChunk ch = false → ch.length ≤ w) →
      ChunksInv (lineRest w chs1) ∧
      (∀ ch ∈ lineRest w chs1, isSpaceChunk ch = false → ch.length ≤ w) ∧
      ChunksInv (lineCur w chs1) ∧
      wordChunks (lineCur w chs1) ++ wordChunks (lineRest w chs1)
        = wordChunks chs1 := by
    intro chs1 hinv1 hlen1
    have hsplit := fitTake_append w chs1 0
    have hinv2 : ChunksInv ((fitTake w 0 chs1).1 ++ (fitTake w 0 chs1).2) := by
      rw [hsplit]; exact hinv1
    have hlen2 : ∀ ch ∈ (fitTake w 0 chs1).1 ++ (fitTake w 0 chs1).2,
        isSpaceChunk ch = false → ch.length ≤ w := by
      rw [hsplit]; exact hlen1
    have hf := splitLong_facts w hw _ _ hinv2 hlen2
    unfold lineRest lineCur
    refine ⟨hf.1, hf.2.1, hf.2.2.1, ?_⟩
    rw [hf.2.2.2, hsplit]
  -- relate `dropLead` to the original chunk list
  have hdl : ChunksInv (dropLead b chs) ∧
      (∀ ch ∈ dropLead b chs, isSpaceChunk ch = false → ch.length ≤ w) ∧
      wordChunks (dropLead b chs) = wordChunks chs := by
    cases chs with
    | nil => exact ⟨by simpa [dropLead] using hinv, by simp [dropLead], by simp [dropLead]⟩
    | cons c cs =>
      simp only [dropLead]
      by_cases h : (b && isSpaceChunk c) = true
      · rw [if_pos h]
        have hcsp : isSpaceChunk c = true := by
          rw [Bool.and_eq_true] at h
          exact h.2
        refine ⟨⟨fun x hx => hinv.good x (by simp [hx]), ?_⟩,
          fun x hx h2 => hlen x (by simp [hx]) h2, ?_⟩
        · have halt := hinv.alt
          unfold AltChunks at halt ⊢
          exact halt.tail
        · rw [wordChunks_cons_space hcsp]
      · rw [if_neg h]
        exact ⟨hinv, hlen, rfl⟩
  obtain ⟨hk1, hk2, hk3, hk4⟩ := key (dropLead b chs) hdl.1 hdl.2.1
  unfold lineStep
  by_cases hemp : (lineCur w (dropLead b chs)).isEmpty
  · simp only [hemp, if_pos rfl]
    refine ⟨hk1, hk2, ?_⟩
    have hnil : lineCur w (dropLead b chs) = [] := by
      simpa [List.isEmpty_iff] using hemp
    rw [hnil] at hk4
    simpa [lineWords, wordChunks] using hk4.trans hdl.2.2
  · simp only [hemp, Bool.false_eq_true, if_false]
    refine ⟨hk1, hk2, ?_⟩
    have hwc : lineWords (some (lineCur w (dropLead b chs)).flatten)
        = wordChunks (lineCur w (dropLead b chs)) := by
      unfold lineWords
      simp only [Option.elim]
      rw [chunksOf_flatten_of_inv _ hk3]
    rw [hwc, hk4, hdl.2.2]

/-- The wrapping loop preserves words exactly, provided no (non-whitespace)
word is longer than the width. -/
theorem wrapLoop_words (w : ℕ) (hw : 1 ≤ w) :
    ∀ (chs : List Chunk) (b : Bool), ChunksInv chs →
      (∀ ch ∈ chs, isSpaceChunk ch = false → ch.length ≤ w) →
      ((wrapLoop w chs b).map (fun l => wordChunks (chunksOf l))).flatten
        = wordChunks chs := by
  intro chs b
  induction chs, b using wrapLoop.induct w with
  | case1 b => intro _ _; simp [wrapLoop, wordChunks, chunksOf]
  | case2 b c rtl l rest hstep ih =>
    intro hinv hlen
    have hf := lineStep_facts w hw b (c :: rtl) hinv hlen
    rw [hstep] at hf
    rw [wrapLoop]
    split
    · rename_i l3 rest3 heq
      rw [hstep] at heq
      injection heq with ha hb
      injection ha with ha
      subst ha
      subst hb
      simp only [List.map_cons, List.flatten_cons]
      rw [ih hf.1 hf.2.1]
      simpa [lineWords] using hf.2.2
    · rename_i rest3 heq
      rw [hstep] at heq
      simp at heq
  | case3 b c rtl rest hstep ih =>
    intro hinv hlen
    have hf := lineStep_facts w hw b (c :: rtl) hinv hlen
    rw [hstep] at hf
    rw [wrapLoop]
    split
    · rename_i l3 rest3 heq
      rw [hstep] at heq
      simp at heq
    · rename_i rest3 heq
      rw [hstep] at heq
      injection heq with ha hb
      subst hb
      rw [ih hf.1 hf.2.1]
      simpa [lineWords] using hf.2.2

/-- Every line produced by the wrapping loop fits in the width. -/
theorem wrapLoop_length_le (w : ℕ) (hw : 1 ≤ w) :
    ∀ (chs : List Chunk) (b : Bool), ∀ l ∈ wrapLoop w chs b, l.length ≤ w := by
  intro chs b
  induction chs, b using wrapLoop.induct w with
  | case1 b => simp [wrapLoop]
  | case2 b c rtl l rest hstep ih =>
    intro l2 hl2
    rw [wrapLoop] at hl2
    split at hl2
    · rename_i l3 rest3 heq
      rw [hstep] at heq
      injection heq with ha hb
      injection ha with ha
      subst ha
      subst hb
      rcases List.mem_cons.mp hl2 with hcase | hcase
      · -- the produced line comes from `lineCur`
        subst hcase
        have h1 : (if (lineCur w (dropLead b (c :: rtl))).isEmpty then none
            else some (lineCur w (dropLead b (c :: rtl))).flatten) = some l2 := by
          have h0 := congrArg Prod.fst hstep
          unfold lineStep at h0
          simpa using h0
        split at h1
        · simp at h1
        · simp only [Option.some.injEq] at h1
          rw [← h1, List.length_flatten]
          have hb2 := sumLen_lineCur_le w hw (dropLead b (c :: rtl))
          simpa [sumLen] using hb2
      · exact ih l2 hcase
    · rename_i rest3 heq
      rw [hstep] at heq
      simp at heq
  | case3 b c rtl rest hstep ih =>
    intro l2 hl2
    rw [wrapLoop] at hl2
    split at hl2
    · rename_i l3 rest3 heq
      rw [hstep] at heq
      simp at heq
    · rename_i rest3 heq
      rw [hstep] at heq
      injection heq with ha hb
      subst hb
      exact ih l2 hl2

/-! ### Single-line identity case of the wrap model -/

theorem fitTake_all (w : ℕ) :
    ∀ (chs : List Chunk) (k : ℕ), k + sumLen chs ≤ w → fitTake w k chs = (chs, []) := by
  intro chs
  induction chs with
  | nil => intro k _; rfl
  | cons c cs ih =>
    intro k hk
    rw [sumLen_cons] at hk
    have h1 : k + c.length ≤ w := by omega
    have h2 := ih (k + c.length) (by omega)
    simp only [fitTake, if_pos h1, h2]

theorem munge_id (t : List Char) (h : ∀ c ∈ t, c = ' ' ∨ isPySpace c = false) :
    munge t = t := by
  have hexp : ∀ col, expandTabs col t = t := by
    induction t with
    | nil => intro col; rfl
    | cons c cs ih =>
      intro col
      have hc := h c (by simp)
      have hct : ¬ c = '\t' := by
        rcases hc with h1 | h1
        · rw [h1]; decide
        · intro hcon; rw [hcon] at h1; exact absurd h1 (by decide)
      have hcn : ¬ (c = '\n' ∨ c = '\r') := by
        rcases hc with h1 | h1
        · rw [h1]; decide
        · intro hcon
          rcases hcon with h2 | h2 <;> rw [h2] at h1 <;> exact absurd h1 (by decide)
      have ihcs := ih (fun x hx => h x (by simp [hx]))
      rw [expandTabs, if_neg hct, if_neg hcn, ihcs]
  unfold munge
  rw [hexp 0]
  have : ∀ c ∈ t, (if isPySpace c then ' ' else c) = c := by
    intro c hc
    rcases h c hc with h1 | h1
    · rw [h1]; simp
    · simp [h1]
  calc t.map (fun c => if isPySpace c then ' ' else c) = t.map id := List.map_congr_left this
    _ = t := List.map_id t

/-- A nonempty text that does not end in whitespace and fits in the width is
wrapped to the single line equal to itself. -/
theorem wrapLoop_single (w : ℕ) (t : List Char) (hne : t ≠ [])
    (hlast : ∀ c, t.getLast? = some c → isPySpace c = false)
    (hlen : t.length ≤ w) :
    wrapLoop w (chunksOf t) false = [t] := by
  have hflat := chunksOf_flatten t
  have hchne : chunksOf t ≠ [] := by
    intro h; rw [h] at hflat; exact hne hflat.symm
  have hsum : sumLen (chunksOf t) = t.length := by
    conv_rhs => rw [← hflat]
    rw [List.length_flatten]
    rfl
  -- the final chunk is a word chunk
  set lc := (chunksOf t).getLast hchne with hlcdef
  have hlcmem : lc ∈ chunksOf t := List.getLast_mem hchne
  have hlcgood : goodChunk lc := good_chunksOf t lc hlcmem
  have hlcne : lc ≠ [] := hlcgood.1
  have hdecomp : (chunksOf t).dropLast ++ [lc] = chunksOf t :=
    List.dropLast_append_getLast hchne
  have htlast : t.getLast? = lc.getLast? := by
    conv_lhs => rw [← hflat, ← hdecomp]
    rw [List.flatten_append]
    rw [List.getLast?_append]
    have : lc.getLast? = some (lc.getLast hlcne) := List.getLast?_eq_getLast lc hlcne
    simp [this]
  have hlcsp : isSpaceChunk lc = false := by
    have hmem2 : lc.getLast hlcne ∈ lc := List.getLast_mem hlcne
    have hcls := goodChunk_mem_class hlcgood hmem2
    have : isPySpace (lc.getLast hlcne) = false := by
      apply hlast
      rw [htlast]
      exact List.getLast?_eq_getLast lc hlcne
    rw [this] at hcls
    exact hcls.symm
  -- each stage of the single iteration
  have hdl : dropLead false (chunksOf t) = chunksOf t := by
    cases hchs : chunksOf t with
    | nil => rfl
    | cons c cs => simp [dropLead]
  have hft : fitTake w 0 (chunksOf t) = (chunksOf t, []) :=
    fitTake_all w (chunksOf t) 0 (by rw [hsum]; omega)
  have hdtw : dropTrailWs (chunksOf t) = chunksOf t := by
    unfold dropTrailWs
    rw [List.getLast?_eq_getLast _ hchne]
    have h9 : isSpaceChunk ((chunksOf t).getLast hchne) = false := by
      rw [← hlcdef]; exact hlcsp
    simp [h9]
  have hcur : lineCur w (chunksOf t) = chunksOf t := by
    unfold lineCur
    rw [hft]
    simp only [splitLong]
    exact hdtw
  have hrest : lineRest w (chunksOf t) = [] := by
    unfold lineRest
    rw [hft]
    simp [splitLong]
  have hchsemp : (chunksOf t).isEmpty = false := by
    cases hchs : chunksOf t with
    | nil => exact absurd hchs hchne
    | cons _ _ => rfl
  have hls : lineStep w false (chunksOf t) = (some t, []) := by
    simp only [lineStep]
    rw [hdl, hcur, hrest, hchsemp]
    simp [hflat]
  cases hchs : chunksOf t with
  | nil => exact absurd hchs hchne
  | cons c cs =>
    rw [hchs] at hls
    rw [wrapLoop]
    split
    · rename_i l3 rest3 heq
      rw [hls] at heq
      injection heq with ha hb
      injection ha with ha
      rw [← ha, ← hb]
      simp [wrapLoop]
    · rename_i rest3 heq
      rw [hls] at heq
      simp at heq

/-- The munged form of a string (`textwrap`'s whitespace normalisation). -/
def mungeStr (t : String) : String := ⟨munge t.data⟩

end Flyer

namespace Flyer

/-- **C5** (amended).  For every text and every positive width `N`, the
wrapping model of `textwrap.wrap` (i) never produces a line longer than `N`
characters; (ii) preserves the word sequence — so in particular never splits a
word — provided the text is hyphen-free and every word is at most `N`
characters long (a word longer than `N` is split by `break_long_words`); and
(iii) wrapping a nonempty string shorter than `N` characters that contains no
whitespace other than plain interior/leading spaces and does not end in
whitespace yields exactly one line equal to the input (without these provisos
the output line may differ from the input, since wrapping normalises
whitespace and drops trailing whitespace). -/
theorem C5_wrap_contract (t : String) (w : ℕ) (hw : 1 ≤ w) :
    (∀ s ∈ pyWrap t w, s.length ≤ w) ∧
    ((∀ c ∈ t.data, c ≠ '-') → (∀ wd ∈ pyWords (mungeStr t), wd.length ≤ w) →
      ((pyWrap t w).map pyWords).flatten = pyWords (mungeStr t)) ∧
    (t ≠ "" → (∀ c ∈ t.data, c = ' ' ∨ isPySpace c = false) →
      (∀ c, t.data.getLast? = some c → isPySpace c = false) →
      t.length < w → pyWrap t w = [t]) := by
  have hw0 : w ≠ 0 := by omega
  refine ⟨?_, ?_, ?_⟩
  · -- (i) line-length bound
    intro s hs
    rw [pyWrap_eq t w hw0] at hs
    obtain ⟨l, hl, rfl⟩ := List.mem_map.mp hs
    have := wrapLoop_length_le w hw (chunksOf (munge t.data)) false l hl
    simpa [String.length] using this
  · -- (ii) word preservation
    intro _ hword
    rw [pyWrap_eq t w hw0]
    have hinv := chunksOf_inv (munge t.data)
    have hlen : ∀ ch ∈ chunksOf (munge t.data),
        isSpaceChunk ch = false → ch.length ≤ w := by
      intro ch hch hsp
      have hmem : ch ∈ wordChunks (chunksOf (munge t.data)) := by
        rw [wordChunks, List.mem_filter]
        exact ⟨hch, by simp [hsp]⟩
      have hmem2 : (⟨ch⟩ : String) ∈ pyWords (mungeStr t) :=
        List.mem_map_of_mem _ hmem
      have := hword _ hmem2
      simpa [String.length] using this
    have hmain := wrapLoop_words w hw (chunksOf (munge t.data)) false hinv hlen
    calc (((wrapLoop w (chunksOf (munge t.data)) false).map
            (fun l => (⟨l⟩ : String))).map pyWords).flatten
        = (((wrapLoop w (chunksOf (munge t.data)) false).map
            (fun l => wordChunks (chunksOf l))).map (List.map (fun c => (⟨c⟩ : String)))).flatten := by
          rw [List.map_map, List.map_map]
          rfl
      _ = ((wrapLoop w (chunksOf (munge t.data)) false).map
            (fun l => wordChunks (chunksOf l))).flatten.map (fun c => (⟨c⟩ : String)) := by
          rw [List.map_flatten]
      _ = pyWords (mungeStr t) := by
          rw [hmain]
          rfl
  · -- (iii) single-line identity
    intro hne hchars hlast hlen
    have hdne : t.data ≠ [] := by
      intro h
      apply hne
      cases t with
      | mk d => simp at h; rw [h]
    have hmun : munge t.data = t.data := munge_id t.data hchars
    rw [pyWrap_eq t w hw0, hmun]
    have hlq : t.length = t.data.length := rfl
    rw [wrapLoop_single w t.data hdne hlast (by omega)]
    cases t with
    | mk d => simp

/-- Witness for `C5_wrap_contract` at `t = "ab cd"`, `N = 6`: both lines fit,
words are preserved, and the short string round-trips. -/
theorem C5_wrap_contract_witness :
    (∀ s ∈ pyWrap "ab cd" 6, s.length ≤ 6) ∧
    (((pyWrap "ab cd" 6).map pyWords).flatten = pyWords (mungeStr "ab cd")) ∧
    pyWrap "ab cd" 6 = ["ab cd"] :=
  have h := C5_wrap_contract "ab cd" 6 (by decide)
  ⟨h.1, h.2.1 (by decide) (by decide),
    h.2.2 (by decide) (by decide) (by decide) (by decide)⟩

/-- Counterexample to C5 as stated: `wrap("aaaa", 3)` splits the single word
`"aaaa"` across two lines (so "never splits a word" fails), and
`wrap("a ", 5)` drops the trailing space (so "a string shorter than `N` yields
exactly one line equal to the input" fails). -/
theorem C5_wrap_counterexample :
    pyWrap "aaaa" 3 = ["aaa", "a"] ∧
    ((pyWrap "aaaa" 3).map pyWords).flatten ≠ pyWords "aaaa" ∧
    ("a ".length < 5 ∧ pyWrap "a " 5 ≠ ["a "]) := by
  refine ⟨by decide, by decide, by decide, by decide⟩

/-! ## Data model: `FlyerConfig` and the environment of external collaborators -/

/-- One entry of `FlyerConfig.topics` (a Python dict read with
`topic.get("title", "")` and `topic.get("color", config.theme_color)`; `none`
models a missing key). -/
structure TopicEntry where
  title? : Option String := none
  color? : Option String := none
deriving DecidableEq, Repr

/-- One entry of `FlyerConfig.links` (a Python dict read with `lnk.get("url")`
and `lnk.get("label")`). -/
structure LinkEntry where
  label? : Option String := none
  url? : Option String := none
deriving DecidableEq, Repr

/-- The `FlyerConfig` dataclass (lines 40-81), fields and defaults as in the
source. -/
structure FlyerConfig where
  candidate_name : String := ""
  party : String := ""
  tagline : String := ""
  election_date : String := ""
  headline : String := ""
  intro_text : String := ""
  cta_text : String := ""
  cta_sub : String := ""
  website_url : String := ""
  extra_text : String := ""
  show_portrait : Bool := true
  show_logo : Bool := true
  show_qr : Bool := true
  show_headline : Bool := true
  show_intro : Bool := true
  show_cta : Bool := true
  show_election_date : Bool := true
  show_tagline : Bool := true
  show_website_url : Bool := true
  show_topics : Bool := true
  show_links : Bool := true
  topics : List TopicEntry := []
  links : List LinkEntry := []
  page_size : String := "a4"
  orientation : String := "portrait"
  theme_color : String := "#1E6FB9"
  portrait_path : String := ""
  logo_path : String := ""
deriving DecidableEq, Repr

/-- The external collaborators of the renderer, as oracles:
* `isFile` — `os.path.isfile` on the host filesystem;
* `loadImageOk` — whether `_load_image_reader` succeeds on a file (cairosvg
  rasterization for `.svg`, `ImageReader` otherwise; both `None` on failure);
* `drawImageOk` — whether `canvas.drawImage` succeeds on that file's data
  (a corrupt file raises at draw time);
* `qrOk` — whether the `qrcode` library can encode a payload (it raises a data-
  overflow error when the payload exceeds the largest QR version's capacity);
* `stringWidth` — reportlab's font-metric `c.stringWidth(text, font, size)`;
* `shorten` — `textwrap.shorten(text, width, placeholder="…")`.
`uploadBase`/`staticDir` are the `UPLOAD_BASE`/`STATIC_DIR` environment
variables with their defaults. -/
structure Env where
  uploadBase : String := "/data/uploads"
  staticDir : String := "/static/assets/img"
  isFile : String → Bool
  loadImageOk : String → Bool
  drawImageOk : String → Bool
  qrOk : String → Bool
  stringWidth : String → String → ℚ → ℚ
  shorten : String → ℕ → String

/-- `_resolve_image` (lines 111-116): look up `UPLOAD_BASE/slug/filename`. -/
def resolveImage (env : Env) (slug filename : String) : Option String :=
  let path := env.uploadBase ++ "/" ++ slug ++ "/" ++ filename
  if env.isFile path then some path else none

/-- `_find_logo` (lines 119-133): explicit config path if it exists, then the
tenant upload directory over a fixed extension list, then static fallbacks. -/
def findLogo (env : Env) (slug : String) (configPath : String) : Option String :=
  if configPath ≠ "" && env.isFile configPath then some configPath
  else
    ((["svg", "png", "jpg", "jpeg", "webp"].map
        (fun ext => env.uploadBase ++ "/" ++ slug ++ "/logo." ++ ext)) ++
     (["logo.svg", "logo.png", "spd-logo.svg", "spd-logo.png"].map
        (fun nm => env.staticDir ++ "/" ++ nm))).find? env.isFile

/-- `_load_image_reader` (lines 136-157): returns a reader or `None`; both the
SVG and the raster branch swallow their exceptions, so the outcome is just the
success oracle. -/
def loadImageReader (env : Env) (filepath : String) : Bool :=
  env.loadImageOk filepath

/-! ## Drawing operations and renderer state -/

/-- The visual block that emitted a drawing operation (§4.5 ordering). -/
inductive BlockId
  | topBar | header | badge | tagline | headline | intro | qrCenter | topics
  | extra | cta | links | url | bottomBar
deriving DecidableEq, Repr

/-- One canvas operation.  `roundRect` stands for the filled/stroked path drawn
by `_draw_rounded_rect`; `text` for `drawString` with the font/color in effect;
`image` for `drawImage` of a file-backed reader; `qrImage` for `drawImage` of a
freshly generated QR image with the given payload. -/
inductive Op
  | rect (x y wd ht : ℚ) (col : RColor)
  | rectStroke (x y wd ht lineW : ℚ) (col : RColor)
  | roundRect (x y wd ht radius : ℚ) (fill : Option RColor) (stroke : Option RColor)
  | text (font : String) (size x y : ℚ) (s : String) (col : RColor)
  | image (file : String) (x y wd ht : ℚ)
  | qrImage (payload : String) (x y wd ht : ℚ)
  | circleStroke (cx cy r lineW : ℚ) (col : RColor)
  | clipCircle (cx cy r : ℚ)
deriving DecidableEq, Repr

/-- A drawing operation tagged with its emitting block. -/
structure TOp where
  blk : BlockId
  op : Op
deriving DecidableEq, Repr

/-- The mutable state threaded through the blocks: the shared vertical cursor
`cursor_y` and the operations drawn so far. -/
structure RState where
  cursor : ℚ
  ops : List TOp
deriving DecidableEq, Repr

/-- The Python exceptions that `generate_flyer_pdf` does not catch:
`ValueError` from `int(_, 16)` inside `_hex_to_rgb` (theme or topic colors) and
the `qrcode` data-overflow error from `_make_qr_image` at the QR centerpiece
(line 390, outside any `try`). -/
inductive RenderError
  | badHex (s : String)
  | qrOverflow (payload : String)
deriving DecidableEq, Repr

/-- The per-call rendering context (geometry, theme, inputs). -/
structure Ctx where
  env : Env
  slug : String
  cfg : FlyerConfig
  pageW : ℚ
  pageH : ℚ
  scale : ℚ
  themeRgb : ℚ × ℚ × ℚ

/-- `margin = 15 * mm` (line 203). -/
def margin : ℚ := 15 * mm

/-- `content_w = page_w - 2 * margin` (line 204). -/
def contentW (ctx : Ctx) : ℚ := ctx.pageW - 2 * margin

/-- `theme_color = colors.Color(*theme_rgb)` (line 199). -/
def themeColor (ctx : Ctx) : RColor :=
  ⟨ctx.themeRgb.1, ctx.themeRgb.2.1, ctx.themeRgb.2.2, 1⟩

/-- `theme_dark = colors.Color(*_darken(theme_rgb, 0.65))` (line 200). -/
def themeDark (ctx : Ctx) : RColor :=
  let d := darken ctx.themeRgb (13/20)
  ⟨d.1, d.2.1, d.2.2, 1⟩

/-- `colors.Color(*theme_rgb, alpha=a)` as used inline at several sites. -/
def themeAlpha (ctx : Ctx) (a : ℚ) : RColor :=
  ⟨ctx.themeRgb.1, ctx.themeRgb.2.1, ctx.themeRgb.2.2, a⟩

/-- The recurring two-step clamp `x = min(base*scale, base); x = max(x, floor)`
used for every font size. -/
def effSize (base floor scale : ℚ) : ℚ := max (min (base * scale) base) floor

/-- `colors.white`. -/
def whiteC : RColor := ⟨1, 1, 1, 1⟩

/-- A grey `colors.Color(v, v, v)`. -/
def greyC (v : ℚ) : RColor := ⟨v, v, v, 1⟩

/-! ## Block renderers

Each block body maps the current state to `(new cursor, emitted operations)`,
following the corresponding section of `generate_flyer_pdf`; the two bodies
that can raise (`qrBody`, `topicsBody`) return `Except`. -/

/-- Header area (lines 220-298): circular portrait with caught draw failure
(the border/clip operations drawn before the failing `drawImage` stay on the
canvas), candidate name, party line, logo with caught draw failure. -/
def headerBody (ctx : Ctx) (st : RState) : ℚ × List Op :=
  let headerTop := st.cursor
  let headerH := 38 * mm * ctx.scale
  let portraitSize := 32 * mm * ctx.scale
  let portraitX := margin
  let portraitY := headerTop - portraitSize
  let portraitRes : List Op × ℚ :=
    if ctx.cfg.show_portrait then
      match (if ctx.cfg.portrait_path ≠ "" then some ctx.cfg.portrait_path
             else resolveImage ctx.env ctx.slug "portrait.jpg") with
      | some f =>
        if ctx.env.isFile f then
          let cx := portraitX + portraitSize / 2
          let cy := portraitY + portraitSize / 2
          let r := portraitSize / 2
          let pre : List Op :=
            [.circleStroke cx cy (r + 1) (3/2) (themeColor ctx), .clipCircle cx cy r]
          if ctx.env.drawImageOk f then
            (pre ++ [.image f portraitX portraitY portraitSize portraitSize],
             portraitX + portraitSize + 5 * mm)
          else (pre, margin)
        else ([], margin)
      | none => ([], margin)
    else ([], margin)
  let textLeft := portraitRes.2
  let nameY := headerTop - 10 * mm * ctx.scale
  let nameSize := effSize 22 12 ctx.scale
  let nameOps : List Op :=
    [.text "Helvetica-Bold" nameSize textLeft nameY ctx.cfg.candidate_name (greyC (1/10))]
  let partyOps : List Op :=
    if ctx.cfg.party ≠ "" then
      let partyY := nameY - (nameSize + 3) * ctx.scale
      let partySize := effSize 11 7 ctx.scale
      [.text "Helvetica" partySize textLeft partyY ctx.cfg.party (greyC (4/10))]
    else []
  let logoOps : List Op :=
    if ctx.cfg.show_logo then
      match findLogo ctx.env ctx.slug ctx.cfg.logo_path with
      | some f =>
        if loadImageReader ctx.env f then
          if ctx.env.drawImageOk f then
            let logoSize := 22 * mm * ctx.scale
            [.image f (ctx.pageW - margin - logoSize) (headerTop - logoSize)
              logoSize logoSize]
          else []
        else []
      | none => []
    else []
  (headerTop - headerH, portraitRes.1 ++ nameOps ++ partyOps ++ logoOps)

/-- Election-date badge (lines 300-316). -/
def badgeBody (ctx : Ctx) (st : RState) : ℚ × List Op :=
  if ctx.cfg.show_election_date && ctx.cfg.election_date ≠ "" then
    let badgeH := 8 * mm * ctx.scale
    let badgeText := "Wahl am " ++ ctx.cfg.election_date
    let badgeFontSize := effSize 10 7 ctx.scale
    let badgeW := ctx.env.stringWidth badgeText "Helvetica-Bold" badgeFontSize + 8 * mm
    let badgeX := margin
    let badgeY := st.cursor
    (st.cursor - (badgeH + 5 * mm * ctx.scale),
     [.roundRect badgeX badgeY badgeW badgeH (3 * mm) (some (themeColor ctx)) none,
      .text "Helvetica-Bold" badgeFontSize (badgeX + 4 * mm)
        (badgeY + (11/5) * mm * ctx.scale) badgeText whiteC])
  else (st.cursor, [])

/-- Tagline (lines 318-325). -/
def taglineBody (ctx : Ctx) (st : RState) : ℚ × List Op :=
  if ctx.cfg.show_tagline && ctx.cfg.tagline ≠ "" then
    let tagSize := effSize 10 7 ctx.scale
    (st.cursor - (tagSize + 4 * mm * ctx.scale),
     [.text "Helvetica-Oblique" tagSize margin st.cursor ctx.cfg.tagline (themeColor ctx)])
  else (st.cursor, [])

/-- Draw a list of wrapped lines at successive cursor positions, advancing the
cursor by `adv` after each line (the `for line in lines[:k]` loops). -/
def drawLines (font : String) (size x : ℚ) (col : RColor) (adv : ℚ) :
    List String → ℚ → ℚ × List Op
  | [], cy => (cy, [])
  | l :: ls, cy =>
    let p := drawLines font size x col adv ls (cy - adv)
    (p.1, .text font size x cy l col :: p.2)

/-- Headline (lines 327-338): wrapped to `int(content_w / (hl_size * 0.5))`
characters, at most 3 lines. -/
def headlineBody (ctx : Ctx) (st : RState) : ℚ × List Op :=
  if ctx.cfg.show_headline && ctx.cfg.headline ≠ "" then
    let hlSize := effSize 22 12 ctx.scale
    let maxChars := (pyInt (contentW ctx / (hlSize * (1/2)))).toNat
    let lines := (pyWrap ctx.cfg.headline maxChars).take 3
    let p := drawLines "Helvetica-Bold" hlSize margin (greyC (1/10)) (hlSize + 2)
      lines st.cursor
    (p.1 - 2 * mm * ctx.scale, p.2)
  else (st.cursor, [])

/-- Intro text (lines 340-351): wrapped to `int(content_w / (intro_size *
0.45))` characters, at most 5 lines. -/
def introBody (ctx : Ctx) (st : RState) : ℚ × List Op :=
  if ctx.cfg.show_intro && ctx.cfg.intro_text ≠ "" then
    let introSize := effSize 10 7 ctx.scale
    let maxChars := (pyInt (contentW ctx / (introSize * (9/20)))).toNat
    let lines := (pyWrap ctx.cfg.intro_text maxChars).take 5
    let p := drawLines "Helvetica" introSize margin (greyC (1/5)) (introSize + 2)
      lines st.cursor
    (p.1 - 3 * mm * ctx.scale, p.2)
  else (st.cursor, [])

/-- The fixed feature bullets of the QR panel (lines 365-369). -/
def bulletTexts : List String :=
  ["Quiz spielen & Wissen testen", "Zu lokalen Themen abstimmen",
   "Persoenliche Nachricht hinterlassen"]

/-- The bullet loop of the QR panel (lines 423-429): decrement first, then draw
the checkmark glyph and the text. -/
def bulletOpsGo (ctx : Ctx) (bulletsX bulletSize bulletLineH : ℚ) :
    List String → ℚ → List Op
  | [], _ => []
  | bt :: rest, cy =>
    let cy2 := cy - bulletLineH
    .text "Helvetica" bulletSize bulletsX cy2 "✓" (themeColor ctx) ::
    .text "Helvetica" bulletSize (bulletsX + 4 * mm) cy2 bt (greyC (3/10)) ::
    bulletOpsGo ctx bulletsX bulletSize bulletLineH rest cy2

/-- QR centerpiece (lines 353-431).  `_make_qr_image` at line 390 is outside
any `try`, so a QR-encoder failure aborts the whole call. -/
def qrBody (ctx : Ctx) (st : RState) : Except RenderError (ℚ × List Op) :=
  if ctx.cfg.show_qr && ctx.cfg.website_url ≠ "" then
    if ctx.env.qrOk ctx.cfg.website_url then
      let qrSize := min (55 * mm * ctx.scale) (55 * mm)
      let boxPadding := 6 * mm * ctx.scale
      let ctaLabelSize := effSize 13 9 ctx.scale
      let bulletSize := effSize 9 6 ctx.scale
      let numBullets : ℚ := (bulletTexts.length : ℚ)
      let ctaGap := 4 * mm * ctx.scale
      let bulletLineH := bulletSize + 3
      let boxH := boxPadding + qrSize + ctaGap + ctaLabelSize + 4
        + numBullets * bulletLineH + boxPadding
      let boxY := st.cursor - boxH
      let qrX := margin + (contentW ctx - qrSize) / 2
      let qrY := boxY + boxH - boxPadding - qrSize
      let ctaLabel := "Jetzt scannen & mitmachen!"
      let labelW := ctx.env.stringWidth ctaLabel "Helvetica-Bold" ctaLabelSize
      let labelX := margin + (contentW ctx - labelW) / 2
      let labelY := qrY - ctaGap - ctaLabelSize
      let maxBulletW := (bulletTexts.map
        (fun bt => ctx.env.stringWidth bt "Helvetica" bulletSize + 5 * mm)).foldl max 0
      let bulletsX := margin + (contentW ctx - maxBulletW) / 2
      .ok (boxY - 5 * mm * ctx.scale,
        [.roundRect margin boxY (contentW ctx) boxH (5 * mm)
           (some (themeAlpha ctx (3/50))) none,
         .rect margin boxY (7/2) boxH (themeColor ctx),
         .qrImage ctx.cfg.website_url qrX qrY qrSize qrSize,
         .rectStroke (qrX - 3/2) (qrY - 3/2) (qrSize + 3) (qrSize + 3) (3/4)
           (greyC (8/10)),
         .text "Helvetica-Bold" ctaLabelSize labelX labelY ctaLabel (greyC (12/100))]
        ++ bulletOpsGo ctx bulletsX bulletSize bulletLineH bulletTexts (labelY - 5))
    else .error (.qrOverflow ctx.cfg.website_url)
  else .ok (st.cursor, [])

/-- The tile loop of the topics block (lines 441-462); the per-topic
`_hex_to_rgb` call can raise on a malformed color string. -/
def topicTileOps (ctx : Ctx) (cursor tileH tileGap tileFont colW : ℚ) :
    ℕ → List TopicEntry → Except RenderError (List Op)
  | _, [] => .ok []
  | i, tp :: rest =>
    match hexToRgb (tp.color?.getD ctx.cfg.theme_color) with
    | .error _ => .error (.badHex (tp.color?.getD ctx.cfg.theme_color))
    | .ok tc =>
      let col : ℚ := ((i % 2 : ℕ) : ℚ)
      let row : ℚ := ((i / 2 : ℕ) : ℚ)
      let tx := margin + col * (colW + tileGap)
      let ty := cursor - row * (tileH + tileGap)
      let ops : List Op :=
        [.roundRect tx (ty - tileH) colW tileH ((5/2) * mm)
           (some ⟨tc.1, tc.2.1, tc.2.2, 12/100⟩) none,
         .rect tx (ty - tileH) 3 tileH ⟨tc.1, tc.2.1, tc.2.2, 1⟩,
         .text "Helvetica-Bold" tileFont (tx + 4 * mm)
           (ty - tileH + (5/2) * mm * ctx.scale) (tp.title?.getD "")
           ⟨tc.1, tc.2.1, tc.2.2, 1⟩]
      (topicTileOps ctx cursor tileH tileGap tileFont colW (i + 1) rest).map
        (fun more => ops ++ more)

/-- Topic tiles (lines 433-465): only the first 6 topics, in a 2-column grid. -/
def topicsBody (ctx : Ctx) (st : RState) : Except RenderError (ℚ × List Op) :=
  if ctx.cfg.show_topics && !ctx.cfg.topics.isEmpty then
    let tileH := 9 * mm * ctx.scale
    let tileGap := 3 * mm
    let tileFont := effSize 9 6 ctx.scale
    let colW := (contentW ctx - tileGap) / 2
    let totalRows : ℕ := ((ctx.cfg.topics.take 6).length + 1) / 2
    (topicTileOps ctx st.cursor tileH tileGap tileFont colW 0 (ctx.cfg.topics.take 6)).map
      (fun ops =>
        (st.cursor - ((totalRows : ℚ) * (tileH + tileGap) + 3 * mm * ctx.scale), ops))
  else .ok (st.cursor, [])

/-- Python `str.strip()` (whitespace stripped at both ends). -/
def pyStrip (s : String) : String :=
  ⟨((s.data.dropWhile (fun c => isPySpace c)).reverse.dropWhile
      (fun c => isPySpace c)).reverse⟩

/-- Python `str.lstrip(chars)`: drop leading characters from a fixed set. -/
def lstripSet (s : String) (chars : List Char) : String :=
  ⟨s.data.dropWhile (fun c => chars.contains c)⟩

/-- The line-break characters relevant to `str.splitlines()` here (`\n`, `\r`,
`\r\n`, `\x0b`, `\x0c`; the rarer unicode breaks are not modelled). -/
def isLineBreak (c : Char) : Bool :=
  c = '\n' || c = '\r' || c = '\x0b' || c = '\x0c'

/-- Worker for `pySplitlines`: accumulate the current line (reversed). -/
def splitLinesGo : List Char → List Char → List (List Char)
  | acc, [] => [acc.reverse]
  | acc, '\r' :: '\n' :: rest =>
    acc.reverse :: (if rest.isEmpty then [] else splitLinesGo [] rest)
  | acc, c :: rest =>
    if isLineBreak c then
      acc.reverse :: (if rest.isEmpty then [] else splitLinesGo [] rest)
    else splitLinesGo (c :: acc) rest

/-- Python `str.splitlines()` (no trailing empty line for a trailing break;
`""` gives `[]`). -/
def pySplitlines (s : String) : List String :=
  if s.data.isEmpty then [] else (splitLinesGo [] s.data).map (fun l => ⟨l⟩)

/-- The wrapped-lines loop of one source line of the extra-text block
(lines 488-504): at most 3 display lines; the bullet glyph is drawn only with
the first. -/
def extraWrapGo (ctx : Ctx) (extraSize lineH : ℚ) (isB : Bool) :
    ℕ → List String → ℚ → ℚ × List Op
  | _, [], cy => (cy, [])
  | j, wl :: rest, cy =>
    let ops : List Op :=
      if isB && j = 0 then
        [.text "Helvetica-Bold" extraSize margin cy "•" (themeColor ctx),
         .text "Helvetica" extraSize (margin + 4 * mm) cy wl (greyC (1/5))]
      else if isB then
        [.text "Helvetica" extraSize (margin + 4 * mm) cy wl (greyC (1/5))]
      else
        [.text "Helvetica" extraSize margin cy wl (greyC (1/5))]
    let p := extraWrapGo ctx extraSize lineH isB (j + 1) rest (cy - lineH)
    (p.1, ops ++ p.2)

/-- The source-line loop of the extra-text block (lines 474-504): blank lines
advance half a line; bullet markers `- `, `* `, `• ` are stripped. -/
def extraLinesGo (ctx : Ctx) (extraSize lineH : ℚ) (maxChars : ℕ) :
    List String → ℚ → ℚ × List Op
  | [], cy => (cy, [])
  | raw :: rest, cy =>
    let rawS := pyStrip raw
    if rawS = "" then
      extraLinesGo ctx extraSize lineH maxChars rest (cy - lineH * (1/2))
    else
      let isB := rawS.startsWith "- " || rawS.startsWith "* " || rawS.startsWith "• "
      let line := if isB then pyStrip (lstripSet rawS ['-', '*', '•', ' ']) else rawS
      let wrapped := (pyWrap line maxChars).take 3
      let p := extraWrapGo ctx extraSize lineH isB 0 wrapped cy
      let q := extraLinesGo ctx extraSize lineH maxChars rest p.1
      (q.1, p.2 ++ q.2)

/-- Extra text (lines 467-505). -/
def extraBody (ctx : Ctx) (st : RState) : ℚ × List Op :=
  if ctx.cfg.extra_text ≠ "" && pyStrip ctx.cfg.extra_text ≠ "" then
    let extraSize := effSize 9 6 ctx.scale
    let maxChars := (pyInt (contentW ctx / (extraSize * (9/20)))).toNat
    let lineH := extraSize + 5/2
    let rawLines := (pySplitlines (pyStrip ctx.cfg.extra_text)).take 10
    let p := extraLinesGo ctx extraSize lineH maxChars rawLines st.cursor
    (p.1 - 2 * mm * ctx.scale, p.2)
  else (st.cursor, [])

/-- CTA area (lines 507-541): the box is pinned at `8*mm` when the cursor is
too low. -/
def ctaBody (ctx : Ctx) (st : RState) : ℚ × List Op :=
  if ctx.cfg.show_cta && ctx.cfg.cta_text ≠ "" then
    let ctaBoxH := 16 * mm * ctx.scale
    let ctaY0 := st.cursor - ctaBoxH
    let ctaY := if ctaY0 < 8 * mm then 8 * mm else ctaY0
    let ctaSize := effSize 11 8 ctx.scale
    let maxChars := (pyInt ((contentW ctx - 8 * mm) / (ctaSize * (1/2)))).toNat
    let lines := (pyWrap ctx.cfg.cta_text maxChars).take 2
    let textY0 := ctaY + ctaBoxH - 5 * mm * ctx.scale
    let p := drawLines "Helvetica-Bold" ctaSize (margin + 5 * mm) (greyC (3/20))
      (ctaSize + 2) lines textY0
    let subOps : List Op :=
      if ctx.cfg.cta_sub ≠ "" then
        let subSize := effSize 8 6 ctx.scale
        [.text "Helvetica" subSize (margin + 5 * mm) (p.1 - 1) ctx.cfg.cta_sub
          (greyC (4/10))]
      else []
    (ctaY - 3 * mm * ctx.scale,
     [.roundRect margin ctaY (contentW ctx) ctaBoxH (4 * mm)
        (some (themeAlpha ctx (2/25))) none,
      .rect margin ctaY 3 ctaBoxH (themeColor ctx)] ++ p.2 ++ subOps)
  else (st.cursor, [])

/-- `lnk.get("label") or lnk.get("url", "")` (line 598). -/
def linkLabel (lnk : LinkEntry) : String :=
  match lnk.label? with
  | some l => if l ≠ "" then l else lnk.url?.getD ""
  | none => lnk.url?.getD ""

/-- One row of the link grid (lines 581-605): per item a bordered QR image
(skipped entirely when the QR encoder fails — the `try` swallows it before any
drawing) and a shortened, centered label. -/
def linkRowDraw (ctx : Ctx) (itemW qrItemSize itemGap labelFontSize labelLineH : ℚ) :
    ℕ → ℚ → ℚ → List LinkEntry → List Op
  | _, _, _, [] => []
  | colIdx, startX, iy, lnk :: rest =>
    let ix := startX + (colIdx : ℚ) * (itemW + itemGap)
    let url := lnk.url?.getD ""
    let qrOps : List Op :=
      if ctx.env.qrOk url then
        [.rectStroke (ix - 3/4) (iy - 3/4) (itemW + 3/2) (qrItemSize + 3/2) (1/2)
           (greyC (8/10)),
         .qrImage url ix iy itemW qrItemSize]
      else []
    let maxLabelChars : ℕ := max 1 ((pyInt (itemW / (labelFontSize * (9/20)))).toNat)
    let labelText := ctx.env.shorten (linkLabel lnk) maxLabelChars
    let labelW := ctx.env.stringWidth labelText "Helvetica" labelFontSize
    let labelX := ix + (itemW - labelW) / 2
    qrOps ++
      (.text "Helvetica" labelFontSize labelX (iy - labelLineH) labelText (greyC (3/10)) ::
       linkRowDraw ctx itemW qrItemSize itemGap labelFontSize labelLineH
         (colIdx + 1) startX iy rest)

/-- Split the valid links into rows of `m1 + 1` items (the
`valid_links[row*m:(row+1)*m]` slices of the row loop); the fuel argument is
the list length, which is always sufficient. -/
def chunkRowsGo (m1 : ℕ) : ℕ → List LinkEntry → List (List LinkEntry)
  | 0, _ => []
  | _ + 1, [] => []
  | fuel + 1, l :: ls => (l :: ls.take m1) :: chunkRowsGo m1 fuel (ls.drop m1)

/-- The row loop of the link grid (lines 575-607). -/
def linkRowsDraw (ctx : Ctx) (itemW qrItemSize itemGap labelFontSize labelLineH : ℚ) :
    List (List LinkEntry) → ℚ → ℚ × List Op
  | [], cy => (cy, [])
  | row :: rows, cy =>
    let n : ℚ := (row.length : ℚ)
    let rowTotalW := n * itemW + (n - 1) * itemGap
    let startX := margin + (contentW ctx - rowTotalW) / 2
    let iy := cy - qrItemSize
    let ops := linkRowDraw ctx itemW qrItemSize itemGap labelFontSize labelLineH
      0 startX iy row
    let p := linkRowsDraw ctx itemW qrItemSize itemGap labelFontSize labelLineH rows
      (cy - (qrItemSize + labelLineH + 2 * mm * ctx.scale))
    (p.1, ops ++ p.2)

/-- Links with QR codes (lines 543-609): only drawn when the whole section
fits above the bottom bar. -/
def linksBody (ctx : Ctx) (st : RState) : ℚ × List Op :=
  if ctx.cfg.show_links && !ctx.cfg.links.isEmpty then
    let validLinks := ctx.cfg.links.filter (fun l => (l.url?.getD "") ≠ "")
    if !validLinks.isEmpty then
      let qrItemSize := min (22 * mm * ctx.scale) (22 * mm)
      let labelFontSize := effSize 6 5 ctx.scale
      let itemGap := 4 * mm * ctx.scale
      let numLinks : ℕ := validLinks.length
      let itemW := qrItemSize
      let maxItemsPerRow : ℕ :=
        max 1 ((pyInt ((contentW ctx + itemGap) / (itemW + itemGap))).toNat)
      let rowsNeeded : ℕ := (numLinks + maxItemsPerRow - 1) / maxItemsPerRow
      let sectionFontSize := effSize 7 5 ctx.scale
      let labelLineH := labelFontSize + 2
      let rowH := qrItemSize + labelLineH + 2
      let sectionTotalH := sectionFontSize + 3 * mm * ctx.scale
        + (rowsNeeded : ℚ) * (rowH + 2 * mm * ctx.scale)
      if st.cursor - sectionTotalH > 8 * mm then
        let cy1 := st.cursor - (sectionFontSize + 2 * mm * ctx.scale)
        let rows := chunkRowsGo (maxItemsPerRow - 1) validLinks.length validLinks
        let p := linkRowsDraw ctx itemW qrItemSize itemGap labelFontSize labelLineH
          rows cy1
        (p.1 - 2 * mm * ctx.scale,
         .text "Helvetica-Bold" sectionFontSize margin st.cursor "Weitere Links"
           (greyC (4/10)) :: p.2)
      else (st.cursor, [])
    else (st.cursor, [])
  else (st.cursor, [])

/-- `display_url` (line 615): `str.replace` removes every occurrence of
`"https://"` and then of `"http://"`, not only a leading prefix. -/
def displayUrl (u : String) : String :=
  (u.replace "https://" "").replace "http://" ""

/-- Website URL text (lines 611-620); the cursor is not moved. -/
def urlBody (ctx : Ctx) (st : RState) : ℚ × List Op :=
  if ctx.cfg.show_website_url && ctx.cfg.website_url ≠ "" then
    let urlSize := effSize 8 6 ctx.scale
    let disp := displayUrl ctx.cfg.website_url
    let urlW := ctx.env.stringWidth disp "Helvetica" urlSize
    (st.cursor,
     [.text "Helvetica" urlSize ((ctx.pageW - urlW) / 2) (5 * mm) disp (themeColor ctx)])
  else (st.cursor, [])

/-- Bottom accent bar (lines 622-624); unconditional. -/
def bottomBarBody (ctx : Ctx) (st : RState) : ℚ × List Op :=
  (st.cursor, [.rect 0 0 ctx.pageW (3 * mm) (themeColor ctx)])

/-! ## Document assembler -/

/-- Lift a non-raising block body into the `Except` shape. -/
def pureBody (f : RState → ℚ × List Op) : RState → Except RenderError (ℚ × List Op) :=
  fun st => .ok (f st)

/-- Run one block: its operations are appended, tagged with the block id. -/
def blockRun (tag : BlockId) (body : RState → Except RenderError (ℚ × List Op)) :
    RState → Except RenderError RState :=
  fun st => (body st).map (fun p => ⟨p.1, st.ops ++ p.2.map (fun o => ⟨tag, o⟩)⟩)

/-- The fixed block sequence of `generate_flyer_pdf` between the top accent
bars and the end of the page. -/
def renderBlocks (ctx : Ctx) : List (BlockId × (RState → Except RenderError (ℚ × List Op))) :=
  [(.header, pureBody (headerBody ctx)),
   (.badge, pureBody (badgeBody ctx)),
   (.tagline, pureBody (taglineBody ctx)),
   (.headline, pureBody (headlineBody ctx)),
   (.intro, pureBody (introBody ctx)),
   (.qrCenter, qrBody ctx),
   (.topics, topicsBody ctx),
   (.extra, pureBody (extraBody ctx)),
   (.cta, pureBody (ctaBody ctx)),
   (.links, pureBody (linksBody ctx)),
   (.url, pureBody (urlBody ctx)),
   (.bottomBar, pureBody (bottomBarBody ctx))]

/-- Run the blocks in order, stopping at the first uncaught exception. -/
def runBlocks : List (BlockId × (RState → Except RenderError (ℚ × List Op))) →
    RState → Except RenderError RState
  | [], st => .ok st
  | (tag, body) :: rest, st =>
    match blockRun tag body st with
    | .ok st2 => runBlocks rest st2
    | .error e => .error e

/-- Resolve geometry and the theme color (lines 185-207). -/
def mkCtx (env : Env) (slug : String) (cfg : FlyerConfig) : Except RenderError Ctx :=
  let pq := resolvePage cfg.page_size cfg.orientation
  match hexToRgb cfg.theme_color with
  | .error _ => .error (.badHex cfg.theme_color)
  | .ok rgb =>
    .ok { env := env, slug := slug, cfg := cfg, pageW := pq.1, pageH := pq.2,
          scale := scaleFor pq.1 pq.2, themeRgb := rgb }

/-- The rendered single-page document: declared page size, the static document
title `f"Flyer – {config.candidate_name}"`, and the drawing operations. -/
structure Doc where
  pageW : ℚ
  pageH : ℚ
  title : String
  ops : List TOp
deriving DecidableEq, Repr

/-- The initial state: top accent bars (lines 209-218) and the starting
cursor. -/
def initState (ctx : Ctx) : RState :=
  let barH := 8 * mm * ctx.scale
  { cursor := ctx.pageH - barH - 6 * mm,
    ops := [⟨.topBar, .rect 0 (ctx.pageH - barH) ctx.pageW barH (themeColor ctx)⟩,
            ⟨.topBar, .rect 0 (ctx.pageH - barH - (3/2) * mm) ctx.pageW ((3/2) * mm)
              (themeDark ctx)⟩] }

/-- `generate_flyer_pdf(slug, config)` (lines 185-629), up to serialization:
the one-page document, or the uncaught exception. -/
def generateFlyer (env : Env) (slug : String) (cfg : FlyerConfig) :
    Except RenderError Doc :=
  match mkCtx env slug cfg with
  | .error e => .error e
  | .ok ctx =>
    match runBlocks (renderBlocks ctx) (initState ctx) with
    | .error e => .error e
    | .ok st =>
      .ok { pageW := ctx.pageW, pageH := ctx.pageH,
            title := "Flyer – " ++ cfg.candidate_name, ops := st.ops }

/-- The serialized byte output.  Modelled from reportlab `pdfdoc.PDFDocument`
under the repository's configuration: `canvas.Canvas(buf, pagesize=...)` is
created without `invariant=1`, and `rl_config.invariant` defaults to 0, so the
saved file embeds an `/Info` creation date and a document ID both derived from
the wall-clock time taken at save time, alongside the page content. -/
structure SerializedPdf where
  content : Doc
  creationStamp : ℕ
deriving DecidableEq, Repr

/-- Serialization (`c.save(); buf.read()`): stamp the document with the
current wall-clock time `now`. -/
def serializePdf (d : Doc) (now : ℕ) : SerializedPdf := ⟨d, now⟩

/-- `generate_flyer_pdf` including serialization to bytes at time `now`. -/
def generateFlyerBytes (env : Env) (now : ℕ) (slug : String) (cfg : FlyerConfig) :
    Except RenderError SerializedPdf :=
  (generateFlyer env slug cfg).map (fun d => serializePdf d now)

/-- The cursor value before each block and after the last one (the successive
values of `cursor_y` during one call). -/
def traceBlocks : List (BlockId × (RState → Except RenderError (ℚ × List Op))) →
    RState → Except RenderError (List ℚ)
  | [], st => .ok [st.cursor]
  | (tag, body) :: rest, st =>
    match blockRun tag body st with
    | .ok st2 => (traceBlocks rest st2).map (fun l => st.cursor :: l)
    | .error e => .error e

/-- The cursor trajectory of one `generate_flyer_pdf` call. -/
def cursorTrace (env : Env) (slug : String) (cfg : FlyerConfig) :
    Except RenderError (List ℚ) :=
  match mkCtx env slug cfg with
  | .error e => .error e
  | .ok ctx => traceBlocks (renderBlocks ctx) (initState ctx)

/-- Decidable success test for `_hex_to_rgb`. -/
def hexParses (s : String) : Bool :=
  match hexToRgb s with
  | .ok _ => true
  | .error _ => false

/-- Decidable success test for the renderer. -/
def renderOk (e : Except RenderError Doc) : Bool :=
  match e with
  | .ok _ => true
  | .error _ => false

/-! ## Generic facts about the block runner -/

theorem mkCtx_inv {env : Env} {slug : String} {cfg : FlyerConfig} {ctx : Ctx}
    (h : mkCtx env slug cfg = .ok ctx) :
    ctx.env = env ∧ ctx.slug = slug ∧ ctx.cfg = cfg ∧
    ctx.pageW = (resolvePage cfg.page_size cfg.orientation).1 ∧
    ctx.pageH = (resolvePage cfg.page_size cfg.orientation).2 ∧
    ctx.scale = scaleFor ctx.pageW ctx.pageH ∧
    hexToRgb cfg.theme_color = .ok ctx.themeRgb := by
  unfold mkCtx at h
  split at h
  · simp at h
  · rename_i rgb heq
    injection h with h
    subst h
    simp [heq]

theorem generateFlyer_unfold {env : Env} {slug : String} {cfg : FlyerConfig}
    {d : Doc} (h : generateFlyer env slug cfg = .ok d) :
    ∃ ctx st, mkCtx env slug cfg = .ok ctx ∧
      runBlocks (renderBlocks ctx) (initState ctx) = .ok st ∧
      d = { pageW := ctx.pageW, pageH := ctx.pageH,
            title := "Flyer – " ++ cfg.candidate_name, ops := st.ops } := by
  unfold generateFlyer at h
  split at h
  · simp at h
  · rename_i ctx hctx
    split at h
    · simp at h
    · rename_i st hst
      injection h with h
      exact ⟨ctx, st, hctx, hst, h.symm⟩

theorem blockRun_inv {tag : BlockId} {body : RState → Except RenderError (ℚ × List Op)}
    {st st2 : RState} (h : blockRun tag body st = .ok st2) :
    ∃ q, body st = .ok q ∧ st2.cursor = q.1 ∧
      st2.ops = st.ops ++ q.2.map (fun o => ⟨tag, o⟩) := by
  unfold blockRun at h
  cases hb : body st with
  | error e => rw [hb] at h; simp [Except.map] at h
  | ok q =>
    rw [hb] at h
    simp only [Except.map, Except.ok.injEq] at h
    exact ⟨q, rfl, by rw [← h], by rw [← h]⟩

theorem runBlocks_ok_of_bodies {bl : List (BlockId × (RState → Except RenderError (ℚ × List Op)))}
    (h : ∀ p ∈ bl, ∀ s : RState, ∃ q, p.2 s = .ok q) :
    ∀ st : RState, ∃ st2, runBlocks bl st = .ok st2 := by
  induction bl with
  | nil => intro st; exact ⟨st, rfl⟩
  | cons p rest ih =>
    intro st
    cases p with
    | mk tag body =>
      obtain ⟨q, hq⟩ := h (tag, body) (by simp) st
      simp only at hq
      obtain ⟨st3, hst3⟩ := ih (fun x hx => h x (by simp [hx]))
        ⟨q.1, st.ops ++ q.2.map (fun o => ⟨tag, o⟩)⟩
      refine ⟨st3, ?_⟩
      simp only [runBlocks, blockRun]
      rw [hq]
      simpa [Except.map] using hst3

theorem runBlocks_ops_grow :
    ∀ (bl : List (BlockId × (RState → Except RenderError (ℚ × List Op))))
      (st st2 : RState), runBlocks bl st = .ok st2 →
      ∃ extra, st2.ops = st.ops ++ extra := by
  intro bl
  induction bl with
  | nil =>
    intro st st2 h
    simp only [runBlocks, Except.ok.injEq] at h
    exact ⟨[], by simp [h]⟩
  | cons p rest ih =>
    intro st st2 h
    cases p with
    | mk tag body =>
      simp only [runBlocks] at h
      split at h
      · rename_i st1 heq
        obtain ⟨q, _, _, hops⟩ := blockRun_inv heq
        obtain ⟨extra, hextra⟩ := ih st1 st2 h
        exact ⟨q.2.map (fun o => ⟨tag, o⟩) ++ extra, by rw [hextra, hops, List.append_assoc]⟩
      · simp at h

/-- Splitting a runner over list concatenation. -/
theorem runBlocks_append :
    ∀ (a b : List (BlockId × (RState → Except RenderError (ℚ × List Op))))
      (st : RState),
      runBlocks (a ++ b) st =
        match runBlocks a st with
        | .ok st1 => runBlocks b st1
        | .error e => .error e := by
  intro a
  induction a with
  | nil => intro b st; simp [runBlocks]
  | cons p rest ih =>
    intro b st
    cases p with
    | mk tag body =>
      simp only [List.cons_append, runBlocks]
      cases hbr : blockRun tag body st with
      | ok st1 => exact ih b st1
      | error e => rfl

/-- Blocks whose tag differs from `T` leave the `T`-filtered operations
unchanged. -/
theorem runBlocks_filter_untouched (T : BlockId) :
    ∀ (bl : List (BlockId × (RState → Except RenderError (ℚ × List Op)))),
      (∀ p ∈ bl, p.1 ≠ T) →
      ∀ (st st2 : RState), runBlocks bl st = .ok st2 →
      st2.ops.filter (fun o => o.blk = T) = st.ops.filter (fun o => o.blk = T) := by
  intro bl
  induction bl with
  | nil =>
    intro _ st st2 h
    simp only [runBlocks, Except.ok.injEq] at h
    rw [h]
  | cons p rest ih =>
    intro hnt st st2 h
    cases p with
    | mk tag body =>
      simp only [runBlocks] at h
      split at h
      · rename_i st1 heq
        obtain ⟨q, _, _, hops⟩ := blockRun_inv heq
        have h1 := ih (fun x hx => hnt x (by simp [hx])) st1 st2 h
        rw [h1, hops, List.filter_append]
        have : (q.2.map (fun o => (⟨tag, o⟩ : TOp))).filter (fun o => o.blk = T) = [] := by
          rw [List.filter_eq_nil_iff]
          intro o ho
          obtain ⟨op, _, rfl⟩ := List.mem_map.mp ho
          simpa using hnt (tag, body) (by simp)
        rw [this, List.append_nil]
      · simp at h

/-- A boolean predicate holding of every `T`-tagged operation a block list can
emit is preserved by the runner. -/
theorem runBlocks_filter_all (T : BlockId) (P : TOp → Bool) :
    ∀ (bl : List (BlockId × (RState → Except RenderError (ℚ × List Op)))),
      (∀ p ∈ bl, p.1 = T → ∀ (s : RState) (q : ℚ × List Op), p.2 s = .ok q →
        ∀ o ∈ q.2, P ⟨T, o⟩ = true) →
      ∀ (st st2 : RState), runBlocks bl st = .ok st2 →
      (st.ops.filter (fun o => o.blk = T)).all P = true →
      (st2.ops.filter (fun o => o.blk = T)).all P = true := by
  intro bl
  induction bl with
  | nil =>
    intro _ st st2 h hst
    simp only [runBlocks, Except.ok.injEq] at h
    rw [← h]
    exact hst
  | cons p rest ih =>
    intro hP st st2 h hst
    cases p with
    | mk tag body =>
      simp only [runBlocks] at h
      split at h
      · rename_i st1 heq
        obtain ⟨q, hq, _, hops⟩ := blockRun_inv heq
        refine ih (fun x hx => hP x (by simp [hx])) st1 st2 h ?_
        rw [hops, List.filter_append, List.all_append]
        rw [hst, Bool.true_and]
        rw [List.all_eq_true]
        intro o ho
        rw [List.mem_filter] at ho
        obtain ⟨op, hop, rfl⟩ := List.mem_map.mp ho.1
        have htag : tag = T := by
          have := ho.2
          simpa using this
        subst htag
        exact hP (tag, body) (by simp) rfl st q hq op hop
      · simp at h

/-! ## Success of the renderer under well-formed inputs -/

theorem topicTileOps_ok (ctx : Ctx) (c0 tH tG tF cW : ℚ) :
    ∀ (l : List TopicEntry) (i : ℕ),
      (∀ t ∈ l, hexParses (t.color?.getD ctx.cfg.theme_color) = true) →
      ∃ ops, topicTileOps ctx c0 tH tG tF cW i l = .ok ops := by
  intro l
  induction l with
  | nil => intro i _; exact ⟨[], rfl⟩
  | cons t rest ih =>
    intro i h
    have ht := h t (by simp)
    unfold hexParses at ht
    cases hx : hexToRgb (t.color?.getD ctx.cfg.theme_color) with
    | error e => rw [hx] at ht; simp at ht
    | ok tc =>
      obtain ⟨ops, hops⟩ := ih (i + 1) (fun x hx2 => h x (by simp [hx2]))
      simp only [topicTileOps, hx, hops, Except.map]
      exact ⟨_, rfl⟩

theorem renderBlocks_bodies_ok (ctx : Ctx)
    (h2 : ctx.cfg.show_topics = true → ∀ t ∈ ctx.cfg.topics.take 6,
      hexParses (t.color?.getD ctx.cfg.theme_color) = true)
    (h3 : ctx.cfg.show_qr = true → ctx.cfg.website_url ≠ "" →
      ctx.env.qrOk ctx.cfg.website_url = true) :
    ∀ p ∈ renderBlocks ctx, ∀ s : RState, ∃ q, p.2 s = .ok q := by
  intro p hp s
  simp only [renderBlocks, List.mem_cons, List.not_mem_nil, or_false] at hp
  rcases hp with h | h | h | h | h | h | h | h | h | h | h | h
  · subst h; exact ⟨_, rfl⟩
  · subst h; exact ⟨_, rfl⟩
  · subst h; exact ⟨_, rfl⟩
  · subst h; exact ⟨_, rfl⟩
  · subst h; exact ⟨_, rfl⟩
  · -- QR centerpiece
    subst h
    simp only [qrBody]
    split
    · rename_i hcond
      rw [Bool.and_eq_true, decide_eq_true_eq] at hcond
      have hqr := h3 hcond.1 hcond.2
      rw [hqr]
      exact ⟨_, rfl⟩
    · exact ⟨_, rfl⟩
  · -- topic tiles
    subst h
    simp only [topicsBody]
    split
    · rename_i hcond
      rw [Bool.and_eq_true] at hcond
      obtain ⟨ops, hops⟩ := topicTileOps_ok ctx s.cursor (9 * mm * ctx.scale)
        (3 * mm) (effSize 9 6 ctx.scale) ((contentW ctx - 3 * mm) / 2)
        (ctx.cfg.topics.take 6) 0 (h2 hcond.1)
      rw [hops]
      exact ⟨_, rfl⟩
    · exact ⟨_, rfl⟩
  · subst h; exact ⟨_, rfl⟩
  · subst h; exact ⟨_, rfl⟩
  · subst h; exact ⟨_, rfl⟩
  · subst h; exact ⟨_, rfl⟩
  · subst h; exact ⟨_, rfl⟩

theorem mkCtx_ok_of {env : Env} {slug : String} {cfg : FlyerConfig}
    {rgb : ℚ × ℚ × ℚ} (hx : hexToRgb cfg.theme_color = .ok rgb) :
    mkCtx env slug cfg = .ok
      { env := env, slug := slug, cfg := cfg,
        pageW := (resolvePage cfg.page_size cfg.orientation).1,
        pageH := (resolvePage cfg.page_size cfg.orientation).2,
        scale := scaleFor (resolvePage cfg.page_size cfg.orientation).1
          (resolvePage cfg.page_size cfg.orientation).2,
        themeRgb := rgb } := by
  simp only [mkCtx, hx]

/-- Under well-formed inputs (parsable theme and topic colors, QR-encodable
payload) the renderer always produces a document. -/
theorem generateFlyer_ok_of (env : Env) (slug : String) (cfg : FlyerConfig)
    (h1 : hexParses cfg.theme_color = true)
    (h2 : cfg.show_topics = true → ∀ t ∈ cfg.topics.take 6,
      hexParses (t.color?.getD cfg.theme_color) = true)
    (h3 : cfg.show_qr = true → cfg.website_url ≠ "" →
      env.qrOk cfg.website_url = true) :
    ∃ ctx st, mkCtx env slug cfg = .ok ctx ∧
      runBlocks (renderBlocks ctx) (initState ctx) = .ok st ∧
      generateFlyer env slug cfg =
        .ok { pageW := ctx.pageW, pageH := ctx.pageH,
              title := "Flyer – " ++ cfg.candidate_name, ops := st.ops } := by
  unfold hexParses at h1
  cases hx : hexToRgb cfg.theme_color with
  | error e => rw [hx] at h1; simp at h1
  | ok rgb =>
    have hctx := @mkCtx_ok_of env slug cfg rgb hx
    obtain ⟨st, hst⟩ := runBlocks_ok_of_bodies
      (renderBlocks_bodies_ok
        { env := env, slug := slug, cfg := cfg,
          pageW := (resolvePage cfg.page_size cfg.orientation).1,
          pageH := (resolvePage cfg.page_size cfg.orientation).2,
          scale := scaleFor (resolvePage cfg.page_size cfg.orientation).1
            (resolvePage cfg.page_size cfg.orientation).2,
          themeRgb := rgb } h2 h3)
      (initState
        { env := env, slug := slug, cfg := cfg,
          pageW := (resolvePage cfg.page_size cfg.orientation).1,
          pageH := (resolvePage cfg.page_size cfg.orientation).2,
          scale := scaleFor (resolvePage cfg.page_size cfg.orientation).1
            (resolvePage cfg.page_size cfg.orientation).2,
          themeRgb := rgb })
    refine ⟨_, st, hctx, hst, ?_⟩
    unfold generateFlyer
    simp only [hctx, hst]

/-! ## Positivity of the geometry -/

theorem resolvePage_pos (ps o : String) :
    0 < (resolvePage ps o).1 ∧ 0 < (resolvePage ps o).2 := by
  unfold resolvePage PAGE_SIZES landscape
  split_ifs <;> constructor <;> norm_num [A4, A5, A6, mm]

theorem scaleFor_pos {w h : ℚ} (hw : 0 < w) (hh : 0 < h) : 0 < scaleFor w h := by
  have h1 : (0 : ℚ) < A4.1 := by norm_num [A4, mm]
  have h2 : (0 : ℚ) < A4.2 := by norm_num [A4, mm]
  exact lt_min (div_pos hw h1) (div_pos hh h2)

theorem ctx_scale_pos {env : Env} {slug : String} {cfg : FlyerConfig} {ctx : Ctx}
    (h : mkCtx env slug cfg = .ok ctx) : 0 < ctx.scale := by
  obtain ⟨_, _, _, hW, hH, hS, _⟩ := mkCtx_inv h
  rw [hS, hW, hH]
  exact scaleFor_pos (resolvePage_pos _ _).1 (resolvePage_pos _ _).2

theorem mm_pos : (0 : ℚ) < mm := by norm_num [mm]

/-! ## Claim C10: `_hex_to_rgb` leniency -/

theorem hexVal_le {c : Char} {v : ℕ} (h : hexVal c = some v) : v ≤ 15 := by
  unfold hexVal at h
  split_ifs at h with h1 h2 h3
  · injection h with h
    subst h
    have h9 : c.toNat ≤ 57 := by
      have := h1.2
      rw [Char.le_def] at this
      exact this
    omega
  · injection h with h
    subst h
    have h9 : c.toNat ≤ 102 := by
      have := h2.2
      rw [Char.le_def] at this
      exact this
    omega
  · injection h with h
    subst h
    have h9 : c.toNat ≤ 70 := by
      have := h3.2
      rw [Char.le_def] at this
      exact this
    omega

theorem list_len6 {α : Type} {l : List α} (h : l.length = 6) :
    ∃ a b c d e f, l = [a, b, c, d, e, f] := by
  rcases l with _ | ⟨a, l⟩
  · simp at h
  rcases l with _ | ⟨b, l⟩
  · simp at h
  rcases l with _ | ⟨c, l⟩
  · simp at h
  rcases l with _ | ⟨d, l⟩
  · simp at h
  rcases l with _ | ⟨e, l⟩
  · simp at h
  rcases l with _ | ⟨f, l⟩
  · simp at h
  rcases l with _ | ⟨g, l⟩
  · exact ⟨a, b, c, d, e, f, rfl⟩
  · simp at h

/-- **C10.** Theme-color parsing is lenient on length but not on digits: every
input whose form after `lstrip("#")` is not exactly 6 characters yields the
fixed fallback blue `(0.12, 0.44, 0.73)` without raising, and every
6-character string of valid hexadecimal digits parses to a color triple with
all components in `[0, 1]`. -/
theorem C10_theme_color_leniency (s : String) :
    ((s.data.dropWhile (· = '#')).length ≠ 6 → hexToRgb s = .ok fallbackBlue) ∧
    (s.data.length = 6 → (∀ c ∈ s.data, (hexVal c).isSome = true) →
      ∃ r g b, hexToRgb s = .ok (r, g, b) ∧
        0 ≤ r ∧ r ≤ 1 ∧ 0 ≤ g ∧ g ≤ 1 ∧ 0 ≤ b ∧ b ≤ 1) := by
  constructor
  · intro hlen
    unfold hexToRgb
    split
    · rename_i c0 c1 c2 c3 c4 c5 heq
      exact absurd (by rw [heq]; rfl) hlen
    · rfl
  · intro hlen hdig
    have hdw : s.data.dropWhile (· = '#') = s.data := by
      cases hd : s.data with
      | nil => rfl
      | cons a l =>
        have ha := hdig a (by rw [hd]; exact List.mem_cons_self a l)
        have hne2 : ¬ (a = '#') := by
          intro hcon
          rw [hcon] at ha
          exact absurd ha (by decide)
        rw [List.dropWhile_cons]
        simp [hne2]
    obtain ⟨c0, c1, c2, c3, c4, c5, hs⟩ := list_len6 hlen
    obtain ⟨v0, hv0⟩ := Option.isSome_iff_exists.mp (hdig c0 (by rw [hs]; simp))
    obtain ⟨v1, hv1⟩ := Option.isSome_iff_exists.mp (hdig c1 (by rw [hs]; simp))
    obtain ⟨v2, hv2⟩ := Option.isSome_iff_exists.mp (hdig c2 (by rw [hs]; simp))
    obtain ⟨v3, hv3⟩ := Option.isSome_iff_exists.mp (hdig c3 (by rw [hs]; simp))
    obtain ⟨v4, hv4⟩ := Option.isSome_iff_exists.mp (hdig c4 (by rw [hs]; simp))
    obtain ⟨v5, hv5⟩ := Option.isSome_iff_exists.mp (hdig c5 (by rw [hs]; simp))
    have hbound : ∀ {a b : ℕ}, a ≤ 15 → b ≤ 15 →
        0 ≤ ((16 * a + b : ℕ) : ℚ) / 255 ∧ ((16 * a + b : ℕ) : ℚ) / 255 ≤ 1 := by
      intro a b ha hb
      constructor
      · positivity
      · rw [div_le_one (by norm_num)]
        have : (16 * a + b : ℕ) ≤ 255 := by omega
        exact_mod_cast this
    refine ⟨((16 * v0 + v1 : ℕ) : ℚ) / 255, ((16 * v2 + v3 : ℕ) : ℚ) / 255,
      ((16 * v4 + v5 : ℕ) : ℚ) / 255, ?_, ?_, ?_, ?_, ?_, ?_, ?_⟩
    · unfold hexToRgb
      rw [hdw, hs]
      simp only [hexPair, hv0, hv1, hv2, hv3, hv4, hv5]
    · exact (hbound (hexVal_le hv0) (hexVal_le hv1)).1
    · exact (hbound (hexVal_le hv0) (hexVal_le hv1)).2
    · exact (hbound (hexVal_le hv2) (hexVal_le hv3)).1
    · exact (hbound (hexVal_le hv2) (hexVal_le hv3)).2
    · exact (hbound (hexVal_le hv4) (hexVal_le hv5)).1
    · exact (hbound (hexVal_le hv4) (hexVal_le hv5)).2

/-- Witness for `C10_theme_color_leniency`: a short input falls back to the
fixed blue, and the 6-digit default theme parses into `[0, 1]` components. -/
theorem C10_theme_color_leniency_witness :
    hexToRgb "#ABC" = .ok fallbackBlue ∧
    (∃ r g b, hexToRgb "1E6FB9" = .ok (r, g, b) ∧
      0 ≤ r ∧ r ≤ 1 ∧ 0 ≤ g ∧ g ≤ 1 ∧ 0 ≤ b ∧ b ≤ 1) :=
  ⟨(C10_theme_color_leniency "#ABC").1 (by decide),
   (C10_theme_color_leniency "1E6FB9").2 (by decide) (by decide)⟩

/-! ## Claim C7: scale factor and effective font sizes -/

/-- The scale factor induced by a page-size/orientation choice. -/
def scaleOf (ps o : String) : ℚ :=
  scaleFor (resolvePage ps o).1 (resolvePage ps o).2

/-- The `(base, floor)` pairs of every clamped font-size site in
`generate_flyer_pdf`; at every site the ceiling of the clamp is the base
itself (`min(base*scale, base)`).  In source order: candidate name, party,
badge, tagline, headline, intro, CTA label, panel bullets, topic tiles, extra
text, CTA text, CTA sub-line, link labels, links section header, website
URL. -/
def fontSites : List (ℚ × ℚ) :=
  [(22, 12), (11, 7), (10, 7), (10, 7), (22, 12), (10, 7), (13, 9), (9, 6),
   (9, 6), (9, 6), (11, 8), (8, 6), (6, 5), (7, 5), (8, 6)]

/-- **C7.** The uniform scale factor equals
`min(page_w / A4_width, page_h / A4_height)` and lies in `(0, 1]` for every
supported page size and orientation; consequently every clamped font size is
monotone across formats (A6 ≤ A5 ≤ A4 at fixed orientation) and stays within
its per-site floor and ceiling. -/
theorem C7_scale_properties :
    (∀ ps ∈ ["a4", "a5", "a6"], ∀ o ∈ ["portrait", "landscape"],
      scaleOf ps o = min ((resolvePage ps o).1 / A4.1) ((resolvePage ps o).2 / A4.2) ∧
      0 < scaleOf ps o ∧ scaleOf ps o ≤ 1) ∧
    (∀ o ∈ ["portrait", "landscape"],
      scaleOf "a6" o ≤ scaleOf "a5" o ∧ scaleOf "a5" o ≤ scaleOf "a4" o) ∧
    (∀ site ∈ fontSites, ∀ o ∈ ["portrait", "landscape"],
      effSize site.1 site.2 (scaleOf "a6" o) ≤ effSize site.1 site.2 (scaleOf "a5" o) ∧
      effSize site.1 site.2 (scaleOf "a5" o) ≤ effSize site.1 site.2 (scaleOf "a4" o)) ∧
    (∀ site ∈ fontSites, ∀ ps ∈ ["a4", "a5", "a6"], ∀ o ∈ ["portrait", "landscape"],
      site.2 ≤ effSize site.1 site.2 (scaleOf ps o) ∧
      effSize site.1 site.2 (scaleOf ps o) ≤ site.1) := by
  with_unfolding_all decide

/-- Witness for `C7_scale_properties` at the A5/portrait format and the
headline site `(22, 12)`. -/
theorem C7_scale_properties_witness :
    (scaleOf "a5" "portrait"
        = min ((resolvePage "a5" "portrait").1 / A4.1) ((resolvePage "a5" "portrait").2 / A4.2) ∧
      0 < scaleOf "a5" "portrait" ∧ scaleOf "a5" "portrait" ≤ 1) ∧
    (effSize 22 12 (scaleOf "a6" "portrait") ≤ effSize 22 12 (scaleOf "a5" "portrait") ∧
      effSize 22 12 (scaleOf "a5" "portrait") ≤ effSize 22 12 (scaleOf "a4" "portrait")) ∧
    (12 ≤ effSize 22 12 (scaleOf "a5" "portrait") ∧
      effSize 22 12 (scaleOf "a5" "portrait") ≤ 22) :=
  ⟨C7_scale_properties.1 "a5" (by decide) "portrait" (by decide),
   C7_scale_properties.2.2.1 (22, 12) (by decide) "portrait" (by decide),
   C7_scale_properties.2.2.2 (22, 12) (by decide) "a5" (by decide) "portrait" (by decide)⟩

/-! ## Concrete test fixtures for closed-form runs -/

/-- A concrete environment: an empty filesystem, a QR encoder that accepts
every payload, and simple deterministic font metrics. -/
def testEnv : Env where
  isFile := fun _ => false
  loadImageOk := fun _ => false
  drawImageOk := fun _ => false
  qrOk := fun _ => true
  stringWidth := fun _ _ size => size
  shorten := fun s _ => s

/-- A placeholder document for reading a renderer result out of `Except`. -/
def emptyDoc : Doc := ⟨0, 0, "", []⟩

/-- The document a renderer result holds, or `emptyDoc` on an error. -/
def docOf (e : Except RenderError Doc) : Doc := e.toOption.getD emptyDoc

/-! ## Claim C6: page geometry and the silent A4 fallback -/

/-- An A6/landscape configuration. -/
def cfg6 : FlyerConfig := { page_size := "a6", orientation := "landscape" }

/-- The document rendered for `cfg6` in the test environment. -/
def d6 : Doc := docOf (generateFlyer testEnv "c" cfg6)

/-- **C6.**  Every successfully rendered document declares exactly the page
dimensions of the requested size with the orientation applied and is non-empty;
the six supported combinations resolve to the exact A4/A5/A6 dimensions; and
every unrecognized page-size string silently resolves like `"a4"` instead of
failing. -/
theorem C6_page_geometry :
    (∀ (env : Env) (slug : String) (cfg : FlyerConfig) (d : Doc),
      generateFlyer env slug cfg = .ok d →
        (d.pageW, d.pageH) = resolvePage cfg.page_size cfg.orientation ∧ d.ops ≠ []) ∧
    (resolvePage "a4" "portrait" = (210 * mm, 297 * mm) ∧
     resolvePage "a4" "landscape" = (297 * mm, 210 * mm) ∧
     resolvePage "a5" "portrait" = (148 * mm, 210 * mm) ∧
     resolvePage "a5" "landscape" = (210 * mm, 148 * mm) ∧
     resolvePage "a6" "portrait" = (105 * mm, 148 * mm) ∧
     resolvePage "a6" "landscape" = (148 * mm, 105 * mm)) ∧
    (∀ ps, ps ∉ ["a4", "a5", "a6"] → ∀ o, resolvePage ps o = resolvePage "a4" o) := by
  refine ⟨?_, ⟨by with_unfolding_all rfl, by with_unfolding_all rfl,
    by with_unfolding_all rfl, by with_unfolding_all rfl,
    by with_unfolding_all rfl, by with_unfolding_all rfl⟩, ?_⟩
  · intro env slug cfg d hgen
    obtain ⟨ctx, st, hctx, hst, hd⟩ := generateFlyer_unfold hgen
    obtain ⟨_, _, _, hW, hH, _, _⟩ := mkCtx_inv hctx
    obtain ⟨extra, hextra⟩ := runBlocks_ops_grow _ _ _ hst
    subst hd
    refine ⟨by rw [hW, hH], ?_⟩
    show st.ops ≠ []
    rw [hextra]
    simp [initState]
  · intro ps hps o
    simp only [List.mem_cons, List.not_mem_nil, or_false, not_or] at hps
    obtain ⟨h4, h5, h6⟩ := hps
    simp [resolvePage, PAGE_SIZES, h4, h5, h6]

/-- Witness for `C6_page_geometry`: the A6/landscape rendering and the
unrecognized size `"letter"`. -/
theorem C6_page_geometry_witness :
    ((d6.pageW, d6.pageH) = resolvePage "a6" "landscape" ∧ d6.ops ≠ []) ∧
    resolvePage "letter" "portrait" = resolvePage "a4" "portrait" :=
  ⟨C6_page_geometry.1 testEnv "c" cfg6 d6 (by with_unfolding_all rfl),
   C6_page_geometry.2.2 "letter" (by decide) "portrait"⟩

/-! ## Claim C4: code images under the QR toggles -/

/-- Whether an operation draws a generated code image. -/
def isCodeOp : Op → Bool
  | .qrImage _ _ _ _ _ => true
  | _ => false

/-- Whether a rendered document contains a code image. -/
def hasCodeImage (d : Doc) : Bool := d.ops.any (fun o => isCodeOp o.op)

/-- A predicate false of every operation every block of a list can emit stays
false over the whole run. -/
theorem runBlocks_any_false (P : Op → Bool) :
    ∀ (bl : List (BlockId × (RState → Except RenderError (ℚ × List Op)))),
      (∀ p ∈ bl, ∀ (s : RState) (q : ℚ × List Op), p.2 s = .ok q →
        ∀ o ∈ q.2, P o = false) →
      ∀ (st st2 : RState), runBlocks bl st = .ok st2 →
      st.ops.any (fun o => P o.op) = false →
      st2.ops.any (fun o => P o.op) = false := by
  intro bl
  induction bl with
  | nil =>
    intro _ st st2 h hst
    simp only [runBlocks, Except.ok.injEq] at h
    rw [← h]
    exact hst
  | cons p rest ih =>
    intro hP st st2 h hst
    cases p with
    | mk tag body =>
      simp only [runBlocks] at h
      split at h
      · rename_i st1 heq
        obtain ⟨q, hq, _, hops⟩ := blockRun_inv heq
        refine ih (fun x hx => hP x (by simp [hx])) st1 st2 h ?_
        rw [hops, List.any_append, hst, Bool.false_or, List.any_eq_false]
        intro o ho
        obtain ⟨op, hop, rfl⟩ := List.mem_map.mp ho
        simp [hP (tag, body) (by simp) st q hq op hop]
      · simp at h

theorem drawLines_no_code (f : String) (sz x : ℚ) (c : RColor) (adv : ℚ) :
    ∀ (ls : List String) (cy : ℚ), ∀ o ∈ (drawLines f sz x c adv ls cy).2,
      isCodeOp o = false := by
  intro ls
  induction ls with
  | nil => intro cy o ho; simp [drawLines] at ho
  | cons l ls ih =>
    intro cy o ho
    simp only [drawLines, List.mem_cons] at ho
    rcases ho with rfl | ho
    · rfl
    · exact ih _ o ho

theorem bulletOpsGo_no_code (ctx : Ctx) (bx bs blh : ℚ) :
    ∀ (bts : List String) (cy : ℚ), ∀ o ∈ bulletOpsGo ctx bx bs blh bts cy,
      isCodeOp o = false := by
  intro bts
  induction bts with
  | nil => intro cy o ho; simp [bulletOpsGo] at ho
  | cons bt rest ih =>
    intro cy o ho
    simp only [bulletOpsGo, List.mem_cons] at ho
    rcases ho with rfl | rfl | ho
    · rfl
    · rfl
    · exact ih _ o ho

theorem topicTileOps_no_code (ctx : Ctx) (c0 tH tG tF cW : ℚ) :
    ∀ (l : List TopicEntry) (i : ℕ) (ops : List Op),
      topicTileOps ctx c0 tH tG tF cW i l = .ok ops →
      ∀ o ∈ ops, isCodeOp o = false := by
  intro l
  induction l with
  | nil =>
    intro i ops h o ho
    simp only [topicTileOps, Except.ok.injEq] at h
    subst h
    simp at ho
  | cons t rest ih =>
    intro i ops h o ho
    simp only [topicTileOps] at h
    split at h
    · simp at h
    · rename_i tc heq
      cases hrec : topicTileOps ctx c0 tH tG tF cW (i + 1) rest with
      | error e => rw [hrec] at h; simp [Except.map] at h
      | ok more =>
        rw [hrec] at h
        simp only [Except.map, Except.ok.injEq] at h
        subst h
        rcases List.mem_append.mp ho with h1 | h2
        · simp only [List.mem_cons, List.not_mem_nil, or_false] at h1
          rcases h1 with rfl | rfl | rfl <;> rfl
        · exact ih (i + 1) more hrec o h2

theorem extraWrapGo_no_code (ctx : Ctx) (es lh : ℚ) (isB : Bool) :
    ∀ (ls : List String) (j : ℕ) (cy : ℚ),
      ∀ o ∈ (extraWrapGo ctx es lh isB j ls cy).2, isCodeOp o = false := by
  intro ls
  induction ls with
  | nil => intro j cy o ho; simp [extraWrapGo] at ho
  | cons wl rest ih =>
    intro j cy o ho
    simp only [extraWrapGo] at ho
    rcases List.mem_append.mp ho with h1 | h2
    · split at h1
      · simp only [List.mem_cons, List.not_mem_nil, or_false] at h1
        rcases h1 with rfl | rfl <;> rfl
      · split at h1 <;>
          simp only [List.mem_cons, List.not_mem_nil, or_false] at h1 <;>
          (subst h1; rfl)
    · exact ih _ _ o h2

theorem extraLinesGo_no_code (ctx : Ctx) (es lh : ℚ) (mc : ℕ) :
    ∀ (raws : List String) (cy : ℚ),
      ∀ o ∈ (extraLinesGo ctx es lh mc raws cy).2, isCodeOp o = false := by
  intro raws
  induction raws with
  | nil => intro cy o ho; simp [extraLinesGo] at ho
  | cons raw rest ih =>
    intro cy o ho
    simp only [extraLinesGo] at ho
    split at ho
    · exact ih _ o ho
    · rcases List.mem_append.mp ho with h1 | h2
      · exact extraWrapGo_no_code ctx es lh _ _ _ _ o h1
      · exact ih _ o h2

/-- Skipping conditions of the QR centerpiece. -/
theorem qrBody_skip {ctx : Ctx}
    (h : ctx.cfg.show_qr = false ∨ ctx.cfg.website_url = "") (st : RState) :
    qrBody ctx st = .ok (st.cursor, []) := by
  simp only [qrBody]
  rcases h with h | h <;> simp [h]

/-- Skipping conditions of the links section. -/
theorem linksBody_skip {ctx : Ctx}
    (h : ctx.cfg.show_links = false ∨ ctx.cfg.links = []) (st : RState) :
    linksBody ctx st = (st.cursor, []) := by
  simp only [linksBody]
  rcases h with h | h <;> simp [h]

theorem headerBody_no_code (ctx : Ctx) (s : RState) :
    ∀ o ∈ (headerBody ctx s).2, isCodeOp o = false := by
  intro o ho
  simp only [headerBody] at ho
  repeat' split at ho
  all_goals dsimp only at ho
  all_goals simp only [List.mem_append, List.mem_cons, List.not_mem_nil, or_false,
    false_or, List.nil_append, List.append_nil] at ho
  all_goals try casesm* _ ∨ _
  all_goals subst_vars
  all_goals rfl

theorem badgeBody_no_code (ctx : Ctx) (s : RState) :
    ∀ o ∈ (badgeBody ctx s).2, isCodeOp o = false := by
  intro o ho
  simp only [badgeBody] at ho
  split at ho <;> dsimp only at ho <;>
    simp only [List.mem_cons, List.not_mem_nil, or_false] at ho
  rcases ho with rfl | rfl <;> rfl

theorem taglineBody_no_code (ctx : Ctx) (s : RState) :
    ∀ o ∈ (taglineBody ctx s).2, isCodeOp o = false := by
  intro o ho
  simp only [taglineBody] at ho
  split at ho <;> dsimp only at ho <;>
    simp only [List.mem_cons, List.not_mem_nil, or_false] at ho
  subst ho
  rfl

theorem headlineBody_no_code (ctx : Ctx) (s : RState) :
    ∀ o ∈ (headlineBody ctx s).2, isCodeOp o = false := by
  intro o ho
  simp only [headlineBody] at ho
  split at ho <;> dsimp only at ho
  · exact drawLines_no_code _ _ _ _ _ _ _ o ho
  · simp at ho

theorem introBody_no_code (ctx : Ctx) (s : RState) :
    ∀ o ∈ (introBody ctx s).2, isCodeOp o = false := by
  intro o ho
  simp only [introBody] at ho
  split at ho <;> dsimp only at ho
  · exact drawLines_no_code _ _ _ _ _ _ _ o ho
  · simp at ho

theorem extraBody_no_code (ctx : Ctx) (s : RState) :
    ∀ o ∈ (extraBody ctx s).2, isCodeOp o = false := by
  intro o ho
  simp only [extraBody] at ho
  split at ho <;> dsimp only at ho
  · exact extraLinesGo_no_code _ _ _ _ _ _ o ho
  · simp at ho

theorem ctaBody_no_code (ctx : Ctx) (s : RState) :
    ∀ o ∈ (ctaBody ctx s).2, isCodeOp o = false := by
  intro o ho
  simp only [ctaBody] at ho
  split at ho <;> dsimp only at ho
  · rcases List.mem_append.mp ho with h1 | hsub
    · rcases List.mem_append.mp h1 with h2 | hmid
      · simp only [List.mem_cons, List.not_mem_nil, or_false] at h2
        rcases h2 with rfl | rfl <;> rfl
      · exact drawLines_no_code _ _ _ _ _ _ _ o hmid
    · split at hsub <;>
        simp only [List.mem_cons, List.not_mem_nil, or_false] at hsub
      subst hsub
      rfl
  · simp at ho

theorem urlBody_no_code (ctx : Ctx) (s : RState) :
    ∀ o ∈ (urlBody ctx s).2, isCodeOp o = false := by
  intro o ho
  simp only [urlBody] at ho
  split at ho <;> dsimp only at ho <;>
    simp only [List.mem_cons, List.not_mem_nil, or_false] at ho
  subst ho
  rfl

theorem bottomBarBody_no_code (ctx : Ctx) (s : RState) :
    ∀ o ∈ (bottomBarBody ctx s).2, isCodeOp o = false := by
  intro o ho
  simp only [bottomBarBody, List.mem_cons, List.not_mem_nil, or_false] at ho
  subst ho
  rfl

/-- **C4** (amended).  If the QR centerpiece is disabled (`show_qr` false or
empty `website_url`) and the links section is empty or disabled, the rendered
document contains no code image.  (As frozen the claim is false: the links
section draws per-link QR code images regardless of `show_qr` and of
`website_url`.) -/
theorem C4_no_code_image (env : Env) (slug : String) (cfg : FlyerConfig) (d : Doc)
    (hgen : generateFlyer env slug cfg = .ok d)
    (hq : cfg.show_qr = false ∨ cfg.website_url = "")
    (hl : cfg.show_links = false ∨ cfg.links = []) :
    hasCodeImage d = false := by
  obtain ⟨ctx, st, hctx, hst, hd⟩ := generateFlyer_unfold hgen
  obtain ⟨_, _, hcfg, _, _, _, _⟩ := mkCtx_inv hctx
  subst hcfg
  subst hd
  show st.ops.any (fun o => isCodeOp o.op) = false
  refine runBlocks_any_false isCodeOp (renderBlocks ctx) ?_ (initState ctx) st hst
    (by simp [initState, isCodeOp])
  intro p hp s q hpq o ho
  simp only [renderBlocks, List.mem_cons, List.not_mem_nil, or_false] at hp
  rcases hp with h | h | h | h | h | h | h | h | h | h | h | h
  · subst h
    simp only [pureBody, Except.ok.injEq] at hpq
    subst hpq
    exact headerBody_no_code ctx s o ho
  · subst h
    simp only [pureBody, Except.ok.injEq] at hpq
    subst hpq
    exact badgeBody_no_code ctx s o ho
  · subst h
    simp only [pureBody, Except.ok.injEq] at hpq
    subst hpq
    exact taglineBody_no_code ctx s o ho
  · subst h
    simp only [pureBody, Except.ok.injEq] at hpq
    subst hpq
    exact headlineBody_no_code ctx s o ho
  · subst h
    simp only [pureBody, Except.ok.injEq] at hpq
    subst hpq
    exact introBody_no_code ctx s o ho
  · subst h
    dsimp only at hpq
    rw [qrBody_skip hq s] at hpq
    simp only [Except.ok.injEq] at hpq
    subst hpq
    simp at ho
  · subst h
    dsimp only at hpq
    simp only [topicsBody] at hpq
    split at hpq
    · cases htile : topicTileOps ctx s.cursor (9 * mm * ctx.scale) (3 * mm)
          (effSize 9 6 ctx.scale) ((contentW ctx - 3 * mm) / 2) 0 (ctx.cfg.topics.take 6) with
      | error e => rw [htile] at hpq; simp [Except.map] at hpq
      | ok ops =>
        rw [htile] at hpq
        simp only [Except.map, Except.ok.injEq] at hpq
        subst hpq
        exact topicTileOps_no_code ctx _ _ _ _ _ _ _ ops htile o ho
    · simp only [Except.ok.injEq] at hpq
      subst hpq
      simp at ho
  · subst h
    simp only [pureBody, Except.ok.injEq] at hpq
    subst hpq
    exact extraBody_no_code ctx s o ho
  · subst h
    simp only [pureBody, Except.ok.injEq] at hpq
    subst hpq
    exact ctaBody_no_code ctx s o ho
  · subst h
    simp only [pureBody, Except.ok.injEq] at hpq
    rw [linksBody_skip hl s] at hpq
    subst hpq
    simp at ho
  · subst h
    simp only [pureBody, Except.ok.injEq] at hpq
    subst hpq
    exact urlBody_no_code ctx s o ho
  · subst h
    simp only [pureBody, Except.ok.injEq] at hpq
    subst hpq
    exact bottomBarBody_no_code ctx s o ho

/-- A configuration with the centerpiece disabled but one link. -/
def cfg4 : FlyerConfig :=
  { show_qr := false, website_url := "https://x.example",
    links := [{ url? := some "https://x.example" }] }

/-- A configuration with `show_qr` on but an empty URL, and one link. -/
def cfg4b : FlyerConfig :=
  { website_url := "", links := [{ url? := some "https://x.example" }] }

/-- The documents rendered for `cfg4` and `cfg4b`. -/
def d4x : Doc := docOf (generateFlyer testEnv "c" cfg4)

def d4y : Doc := docOf (generateFlyer testEnv "c" cfg4b)

/-- **C4** counterexample: with `show_qr = false` and a non-empty
`website_url` the document still contains a code image (drawn by the links
section), and so does the `show_qr = true` / empty-URL configuration — both
implications of the frozen claim fail. -/
theorem C4_no_code_image_counterexample :
    cfg4.show_qr = false ∧ cfg4.website_url ≠ "" ∧ hasCodeImage d4x = true ∧
    cfg4b.show_qr = true ∧ cfg4b.website_url = "" ∧ hasCodeImage d4y = true := by
  refine ⟨rfl, by decide, by with_unfolding_all rfl, rfl, rfl, by with_unfolding_all rfl⟩

/-- The default-configuration document. -/
def d4w : Doc := docOf (generateFlyer testEnv "c" {})

/-- Witness for `C4_no_code_image`: the default configuration (empty URL, no
links) renders without any code image. -/
theorem C4_no_code_image_witness : hasCodeImage d4w = false :=
  C4_no_code_image testEnv "c" {} d4w (by with_unfolding_all rfl) (.inr rfl) (.inr rfl)

/-! ## Claim C9: protocol stripping of the displayed URL -/

/-- The display transformation the spec's words describe: strip one protocol
PREFIX (`https://` or `http://`) from the front of the URL. -/
def specStripProtocol (u : String) : String :=
  if u.startsWith "https://" then u.drop 8
  else if u.startsWith "http://" then u.drop 7
  else u

/-- The `(y, text)` pairs of the website-URL block's text operations. -/
def urlTexts (d : Doc) : List (ℚ × String) :=
  d.ops.filterMap (fun o =>
    match o.blk, o.op with
    | .url, .text _ _ _ y str _ => some (y, str)
    | _, _ => none)

/-- The payloads of the code images a document contains. -/
def qrPayloads (d : Doc) : List String :=
  d.ops.filterMap (fun o =>
    match o.op with
    | .qrImage p _ _ _ _ => some p
    | _ => none)

/-- Blocks whose tag differs from `T` contribute nothing to a `filterMap`
that only keeps `T`-tagged operations. -/
theorem runBlocks_filterMap_untouched {α : Type} (f : TOp → Option α) (T : BlockId)
    (hf : ∀ o : TOp, o.blk ≠ T → f o = none) :
    ∀ (bl : List (BlockId × (RState → Except RenderError (ℚ × List Op)))),
      (∀ p ∈ bl, p.1 ≠ T) →
      ∀ (st st2 : RState), runBlocks bl st = .ok st2 →
      st2.ops.filterMap f = st.ops.filterMap f := by
  intro bl
  induction bl with
  | nil =>
    intro _ st st2 h
    simp only [runBlocks, Except.ok.injEq] at h
    rw [h]
  | cons p rest ih =>
    intro hnt st st2 h
    cases p with
    | mk tag body =>
      simp only [runBlocks] at h
      split at h
      · rename_i st1 heq
        obtain ⟨q, _, _, hops⟩ := blockRun_inv heq
        have h1 := ih (fun x hx => hnt x (by simp [hx])) st1 st2 h
        rw [h1, hops, List.filterMap_append]
        have hnil : (q.2.map (fun o => (⟨tag, o⟩ : TOp))).filterMap f = [] := by
          rw [List.filterMap_eq_nil_iff]
          intro o ho
          obtain ⟨op, _, rfl⟩ := List.mem_map.mp ho
          exact hf _ (by simpa using hnt (tag, body) (by simp))
        rw [hnil, List.append_nil]
      · simp at h

/-- **C9** (amended).  When `show_website_url` is on and `website_url` is
non-empty, the website-URL block draws exactly one text, at `y = 5*mm`, whose
string is the URL with every occurrence of `https://` and then of `http://`
removed (`str.replace`, not a prefix strip — see the counterexample), while
the payload of every code image of the QR centerpiece is the original,
untouched `website_url`. -/
theorem C9_url_display (env : Env) (slug : String) (cfg : FlyerConfig) (d : Doc)
    (hgen : generateFlyer env slug cfg = .ok d)
    (hs : cfg.show_website_url = true) (hu : cfg.website_url ≠ "") :
    urlTexts d = [(5 * mm, displayUrl cfg.website_url)] ∧
    (∀ o ∈ d.ops, o.blk = .qrCenter → ∀ p x y w h, o.op = .qrImage p x y w h →
      p = cfg.website_url) := by
  obtain ⟨ctx, st, hctx, hst, hd⟩ := generateFlyer_unfold hgen
  obtain ⟨_, _, hcfg, _, _, _, _⟩ := mkCtx_inv hctx
  subst hcfg
  subst hd
  constructor
  · show st.ops.filterMap _ = _
    have hsplit : renderBlocks ctx
        = [(.header, pureBody (headerBody ctx)),
           (.badge, pureBody (badgeBody ctx)),
           (.tagline, pureBody (taglineBody ctx)),
           (.headline, pureBody (headlineBody ctx)),
           (.intro, pureBody (introBody ctx)),
           (.qrCenter, qrBody ctx),
           (.topics, topicsBody ctx),
           (.extra, pureBody (extraBody ctx)),
           (.cta, pureBody (ctaBody ctx)),
           (.links, pureBody (linksBody ctx))]
          ++ [(.url, pureBody (urlBody ctx)),
              (.bottomBar, pureBody (bottomBarBody ctx))] := rfl
    rw [hsplit, runBlocks_append] at hst
    set f : TOp → Option (ℚ × String) := fun o =>
      match o.blk, o.op with
      | .url, .text _ _ _ y str _ => some (y, str)
      | _, _ => none with hf
    cases hA : runBlocks [(.header, pureBody (headerBody ctx)),
        (.badge, pureBody (badgeBody ctx)),
        (.tagline, pureBody (taglineBody ctx)),
        (.headline, pureBody (headlineBody ctx)),
        (.intro, pureBody (introBody ctx)),
        (.qrCenter, qrBody ctx),
        (.topics, topicsBody ctx),
        (.extra, pureBody (extraBody ctx)),
        (.cta, pureBody (ctaBody ctx)),
        (.links, pureBody (linksBody ctx))] (initState ctx) with
    | error e => rw [hA] at hst; simp at hst
    | ok st1 =>
      rw [hA] at hst
      have hst1 : st1.ops.filterMap f = [] := by
        have huntouched := runBlocks_filterMap_untouched f .url
          (by intro o hne; rcases o with ⟨blk, op⟩; cases blk <;> simp_all [hf])
          _ (by intro p hp; simp only [List.mem_cons, List.not_mem_nil, or_false] at hp;
                rcases hp with h | h | h | h | h | h | h | h | h | h <;> subst h <;> simp)
          _ _ hA
        rw [huntouched]
        simp [initState, hf]
      simp only [runBlocks, blockRun, pureBody, Except.map] at hst
      simp only [Except.ok.injEq] at hst
      subst hst
      dsimp only
      rw [List.filterMap_append, List.filterMap_append, hst1, List.nil_append]
      have hurl : urlBody ctx st1
          = (st1.cursor, [.text "Helvetica" (effSize 8 6 ctx.scale)
              ((ctx.pageW - ctx.env.stringWidth (displayUrl ctx.cfg.website_url) "Helvetica"
                (effSize 8 6 ctx.scale)) / 2) (5 * mm)
              (displayUrl ctx.cfg.website_url) (themeColor ctx)]) := by
        simp only [urlBody, hs, hu]
        simp
        exact hu
      rw [hurl]
      simp [hf, bottomBarBody]
  · intro o ho hblk p x y w h hop
    have hall := runBlocks_filter_all .qrCenter
      (fun o => match o.op with
        | .qrImage p _ _ _ _ => decide (p = ctx.cfg.website_url)
        | _ => true)
      (renderBlocks ctx) ?_ _ _ hst (by simp [initState])
    · have hmem : o ∈ st.ops.filter (fun o => o.blk = .qrCenter) :=
        List.mem_filter.mpr ⟨ho, by simp [hblk]⟩
      have := List.all_eq_true.mp hall o hmem
      rw [hop] at this
      simpa using this
    · intro p2 hp2 htag s q hpq o2 ho2
      simp only [renderBlocks, List.mem_cons, List.not_mem_nil, or_false] at hp2
      rcases hp2 with h2 | h2 | h2 | h2 | h2 | h2 | h2 | h2 | h2 | h2 | h2 | h2 <;>
        subst h2 <;> simp at htag
      -- only the qrCenter entry remains
      dsimp only at hpq
      simp only [qrBody] at hpq
      split at hpq
      · split at hpq
        · simp only [Except.ok.injEq] at hpq
          subst hpq
          rcases List.mem_append.mp ho2 with h3 | h3
          · simp only [List.mem_cons, List.not_mem_nil, or_false] at h3
            rcases h3 with rfl | rfl | rfl | rfl | rfl <;> simp
          · have hnc := bulletOpsGo_no_code ctx _ _ _ _ _ o2 h3
            cases o2 <;> first | rfl | exact Bool.noConfusion hnc
        · simp at hpq
      · simp only [Except.ok.injEq] at hpq
        subst hpq
        simp at ho2

/-- A URL that contains `https://` both as prefix and in the middle. -/
def cfg9 : FlyerConfig := { website_url := "https://a.de/https://b" }

/-- The document rendered for `cfg9`. -/
def d9x : Doc := docOf (generateFlyer testEnv "c" cfg9)

/-- **C9** counterexample: `display_url` uses `str.replace`, which removes
every occurrence of the protocol, not only a leading prefix: the drawn text
for `https://a.de/https://b` is `a.de/b`, not the prefix-stripped
`a.de/https://b` the spec describes; the QR payload stays untouched. -/
theorem C9_url_display_counterexample :
    displayUrl "https://a.de/https://b" = "a.de/b" ∧
    specStripProtocol "https://a.de/https://b" = "a.de/https://b" ∧
    urlTexts d9x = [(5 * mm, "a.de/b")] ∧
    qrPayloads d9x = ["https://a.de/https://b"] := by
  refine ⟨by with_unfolding_all rfl, by with_unfolding_all rfl,
    by with_unfolding_all rfl, by with_unfolding_all rfl⟩

/-- A simple prefixed URL. -/
def cfg9w : FlyerConfig := { website_url := "https://x.de" }

/-- The document rendered for `cfg9w`. -/
def d9w : Doc := docOf (generateFlyer testEnv "c" cfg9w)

/-- Witness for `C9_url_display` at `cfg9w`. -/
theorem C9_url_display_witness :
    urlTexts d9w = [(5 * mm, displayUrl cfg9w.website_url)] ∧
    (∀ o ∈ d9w.ops, o.blk = .qrCenter → ∀ p x y w h, o.op = .qrImage p x y w h →
      p = cfg9w.website_url) :=
  C9_url_display testEnv "c" cfg9w d9w (by with_unfolding_all rfl) rfl (by decide)

/-! ## Claim C8: at most six topic tiles -/

theorem take6_isEmpty {α : Type} (l : List α) : (l.take 6).isEmpty = l.isEmpty := by
  cases l <;> rfl

/-- `topicTileOps` reads the context only through the default topic color and
the scale. -/
theorem topicTileOps_congr (c c2 : Ctx) (hth : c2.cfg.theme_color = c.cfg.theme_color)
    (hsc : c2.scale = c.scale) (c0 tH tG tF cW : ℚ) :
    ∀ (l : List TopicEntry) (i : ℕ),
      topicTileOps c2 c0 tH tG tF cW i l = topicTileOps c c0 tH tG tF cW i l := by
  intro l
  induction l with
  | nil => intro i; rfl
  | cons t rest ih =>
    intro i
    simp only [topicTileOps]
    rw [hth, hsc]
    cases hexToRgb (t.color?.getD c.cfg.theme_color) with
    | error e => rfl
    | ok tc => rw [ih (i + 1)]

/-- Truncating the topic list to its first six entries does not change the
topics block. -/
theorem topicsBody_take6 (c : Ctx) (st : RState) :
    topicsBody ⟨c.env, c.slug, { c.cfg with topics := c.cfg.topics.take 6 },
      c.pageW, c.pageH, c.scale, c.themeRgb⟩ st = topicsBody c st := by
  simp only [topicsBody]
  rw [take6_isEmpty, List.take_take, Nat.min_self]
  rw [topicTileOps_congr c ⟨c.env, c.slug, { c.cfg with topics := c.cfg.topics.take 6 },
    c.pageW, c.pageH, c.scale, c.themeRgb⟩ rfl rfl]
  with_unfolding_all rfl

/-- `extraWrapGo` reads the context only through the theme color. -/
theorem extraWrapGo_congr (c c2 : Ctx) (hrgb : c2.themeRgb = c.themeRgb)
    (es lh : ℚ) (isB : Bool) :
    ∀ (ls : List String) (j : ℕ) (cy : ℚ),
      extraWrapGo c2 es lh isB j ls cy = extraWrapGo c es lh isB j ls cy := by
  intro ls
  induction ls with
  | nil => intro j cy; rfl
  | cons wl rest ih =>
    intro j cy
    simp only [extraWrapGo, themeColor, hrgb, ih]

/-- `extraLinesGo` reads the context only through the theme color. -/
theorem extraLinesGo_congr (c c2 : Ctx) (hrgb : c2.themeRgb = c.themeRgb)
    (es lh : ℚ) (mc : ℕ) :
    ∀ (raws : List String) (cy : ℚ),
      extraLinesGo c2 es lh mc raws cy = extraLinesGo c es lh mc raws cy := by
  intro raws
  induction raws with
  | nil => intro cy; rfl
  | cons raw rest ih =>
    intro cy
    simp only [extraLinesGo, extraWrapGo_congr c c2 hrgb, ih]

theorem extraBody_take6 (c : Ctx) (st : RState) :
    extraBody ⟨c.env, c.slug, { c.cfg with topics := c.cfg.topics.take 6 },
      c.pageW, c.pageH, c.scale, c.themeRgb⟩ st = extraBody c st := by
  simp only [extraBody]
  rw [extraLinesGo_congr c ⟨c.env, c.slug, { c.cfg with topics := c.cfg.topics.take 6 },
    c.pageW, c.pageH, c.scale, c.themeRgb⟩ rfl]
  rfl

/-- `linkRowDraw` reads the context only through the environment. -/
theorem linkRowDraw_congr (c c2 : Ctx) (henv : c2.env = c.env)
    (iw qs ig lf llh : ℚ) :
    ∀ (l : List LinkEntry) (ci : ℕ) (sx iy : ℚ),
      linkRowDraw c2 iw qs ig lf llh ci sx iy l
        = linkRowDraw c iw qs ig lf llh ci sx iy l := by
  intro l
  induction l with
  | nil => intro ci sx iy; rfl
  | cons lnk rest ih =>
    intro ci sx iy
    simp only [linkRowDraw, henv, ih]

/-- `linkRowsDraw` reads the context only through the environment, page width
and scale. -/
theorem linkRowsDraw_congr (c c2 : Ctx) (henv : c2.env = c.env)
    (hW : c2.pageW = c.pageW) (hsc : c2.scale = c.scale) (iw qs ig lf llh : ℚ) :
    ∀ (rows : List (List LinkEntry)) (cy : ℚ),
      linkRowsDraw c2 iw qs ig lf llh rows cy
        = linkRowsDraw c iw qs ig lf llh rows cy := by
  intro rows
  induction rows with
  | nil => intro cy; rfl
  | cons row rest ih =>
    intro cy
    simp only [linkRowsDraw, contentW, hW, hsc, linkRowDraw_congr c c2 henv, ih]

theorem linksBody_take6 (c : Ctx) (st : RState) :
    linksBody ⟨c.env, c.slug, { c.cfg with topics := c.cfg.topics.take 6 },
      c.pageW, c.pageH, c.scale, c.themeRgb⟩ st = linksBody c st := by
  simp only [linksBody]
  rw [linkRowsDraw_congr c ⟨c.env, c.slug, { c.cfg with topics := c.cfg.topics.take 6 },
    c.pageW, c.pageH, c.scale, c.themeRgb⟩ rfl rfl rfl]
  rfl

/-- Truncating the topic list to its first six entries does not change the
whole block run. -/
theorem renderBlocks_take6 (c : Ctx) :
    renderBlocks ⟨c.env, c.slug, { c.cfg with topics := c.cfg.topics.take 6 },
        c.pageW, c.pageH, c.scale, c.themeRgb⟩
      = renderBlocks c := by
  have ht : topicsBody ⟨c.env, c.slug, { c.cfg with topics := c.cfg.topics.take 6 },
      c.pageW, c.pageH, c.scale, c.themeRgb⟩ = topicsBody c :=
    funext (topicsBody_take6 c)
  simp only [renderBlocks]
  refine congrArg₂ List.cons rfl (congrArg₂ List.cons rfl (congrArg₂ List.cons rfl
    (congrArg₂ List.cons rfl (congrArg₂ List.cons rfl (congrArg₂ List.cons rfl
      (congrArg₂ List.cons (congrArg (Prod.mk BlockId.topics) ht)
        (congrArg₂ List.cons
            (congrArg (fun b => (BlockId.extra, pureBody b)) (funext (extraBody_take6 c)))
          (congrArg₂ List.cons rfl
            (congrArg₂ List.cons
                (congrArg (fun b => (BlockId.links, pureBody b)) (funext (linksBody_take6 c)))
              (congrArg₂ List.cons rfl (congrArg₂ List.cons rfl rfl)))))))))))

theorem mkCtx_take6 (env : Env) (slug : String) (cfg : FlyerConfig) :
    mkCtx env slug { cfg with topics := cfg.topics.take 6 }
      = (mkCtx env slug cfg).map (fun c =>
          ⟨c.env, c.slug, { c.cfg with topics := c.cfg.topics.take 6 },
           c.pageW, c.pageH, c.scale, c.themeRgb⟩) := by
  simp only [mkCtx]
  rw [show ({ cfg with topics := cfg.topics.take 6 } : FlyerConfig).theme_color
      = cfg.theme_color from rfl]
  cases hexToRgb cfg.theme_color with
  | error e => rfl
  | ok rgb => rfl

/-- Truncating the topic list to its first six entries does not change the
rendered document at all. -/
theorem generateFlyer_take6 (env : Env) (slug : String) (cfg : FlyerConfig) :
    generateFlyer env slug { cfg with topics := cfg.topics.take 6 }
      = generateFlyer env slug cfg := by
  simp only [generateFlyer]
  rw [mkCtx_take6]
  cases hm : mkCtx env slug cfg with
  | error e => rfl
  | ok c =>
    simp only [Except.map]
    rw [show initState ⟨c.env, c.slug, { c.cfg with topics := c.cfg.topics.take 6 },
        c.pageW, c.pageH, c.scale, c.themeRgb⟩ = initState c from rfl]
    rw [renderBlocks_take6 c]

/-- An eight-entry topic list. -/
def cfg8 : FlyerConfig :=
  { topics := [⟨some "t1", none⟩, ⟨some "t2", none⟩, ⟨some "t3", none⟩, ⟨some "t4", none⟩,
               ⟨some "t5", none⟩, ⟨some "t6", none⟩, ⟨some "t7", none⟩, ⟨some "t8", none⟩] }

/-- The document rendered for `cfg8`. -/
def d8 : Doc := docOf (generateFlyer testEnv "c" cfg8)

/-- The `(x, y)` corners of the topic tiles a document contains. -/
def topicTileRects (d : Doc) : List (ℚ × ℚ) :=
  d.ops.filterMap (fun o =>
    match o.blk, o.op with
    | .topics, .roundRect x y _ _ _ _ _ => some (x, y)
    | _, _ => none)

set_option maxRecDepth 2048 in
/-- **C8.**  The rendered output never depends on topic entries beyond the
sixth — truncating the list to six entries gives the identical document (so
the extras contribute neither drawing operations nor cursor advance) — and the
eight-entry list `cfg8` renders exactly 6 tiles whose corners alternate
between 2 column positions over 3 row positions (a 2×3 grid). -/
theorem C8_topics_limit :
    (∀ (env : Env) (slug : String) (cfg : FlyerConfig),
      generateFlyer env slug { cfg with topics := cfg.topics.take 6 }
        = generateFlyer env slug cfg) ∧
    topicTileRects d8 = [(5400/127, 84960/127), (38340/127, 84960/127),
      (5400/127, 80640/127), (38340/127, 80640/127),
      (5400/127, 76320/127), (38340/127, 76320/127)] := by
  refine ⟨generateFlyer_take6, ?_⟩
  with_unfolding_all rfl

/-! ## Claim C3: monotonicity of the vertical cursor -/

theorem effSize_ge_floor (b f s : ℚ) : f ≤ effSize b f s := le_max_right _ _

theorem drawLines_cursor_le (f : String) (sz x : ℚ) (c : RColor) (adv : ℚ)
    (hadv : 0 ≤ adv) :
    ∀ (ls : List String) (cy : ℚ), (drawLines f sz x c adv ls cy).1 ≤ cy := by
  intro ls
  induction ls with
  | nil => intro cy; exact le_refl _
  | cons l rest ih =>
    intro cy
    calc (drawLines f sz x c adv (l :: rest) cy).1
        = (drawLines f sz x c adv rest (cy - adv)).1 := rfl
      _ ≤ cy - adv := ih _
      _ ≤ cy := by linarith

theorem extraWrapGo_cursor_le (ctx : Ctx) (es lh : ℚ) (isB : Bool) (hlh : 0 ≤ lh) :
    ∀ (ls : List String) (j : ℕ) (cy : ℚ),
      (extraWrapGo ctx es lh isB j ls cy).1 ≤ cy := by
  intro ls
  induction ls with
  | nil => intro j cy; exact le_refl _
  | cons wl rest ih =>
    intro j cy
    calc (extraWrapGo ctx es lh isB j (wl :: rest) cy).1
        = (extraWrapGo ctx es lh isB (j + 1) rest (cy - lh)).1 := rfl
      _ ≤ cy - lh := ih _ _
      _ ≤ cy := by linarith

theorem extraLinesGo_cursor_le (ctx : Ctx) (es lh : ℚ) (mc : ℕ) (hlh : 0 ≤ lh) :
    ∀ (raws : List String) (cy : ℚ),
      (extraLinesGo ctx es lh mc raws cy).1 ≤ cy := by
  intro raws
  induction raws with
  | nil => intro cy; exact le_refl _
  | cons raw rest ih =>
    intro cy
    simp only [extraLinesGo]
    split
    · refine le_trans (ih _) ?_
      linarith
    · dsimp only
      exact le_trans (ih _) (extraWrapGo_cursor_le ctx es lh _ hlh _ _ _)

theorem linkRowsDraw_cursor_le (ctx : Ctx) (iw qs ig lf llh : ℚ)
    (h : 0 ≤ qs + llh + 2 * mm * ctx.scale) :
    ∀ (rows : List (List LinkEntry)) (cy : ℚ),
      (linkRowsDraw ctx iw qs ig lf llh rows cy).1 ≤ cy := by
  intro rows
  induction rows with
  | nil => intro cy; exact le_refl _
  | cons row rest ih =>
    intro cy
    calc (linkRowsDraw ctx iw qs ig lf llh (row :: rest) cy).1
        = (linkRowsDraw ctx iw qs ig lf llh rest
            (cy - (qs + llh + 2 * mm * ctx.scale))).1 := rfl
      _ ≤ cy - (qs + llh + 2 * mm * ctx.scale) := ih _
      _ ≤ cy := by linarith

/-- **C3** (amended).  Across one render, every block leaves the shared cursor
at or below where it found it, with a single exception: the CTA box, when the
cursor has run too low, is pinned at `8*mm` from the page bottom and leaves the
cursor at exactly `8*mm - 3*mm*scale` — which can lie ABOVE the incoming
cursor (the frozen claim that the cursor never increases is false; see the
counterexample). -/
theorem C3_cursor_monotone (env : Env) (slug : String) (cfg : FlyerConfig) (ctx : Ctx)
    (hctx : mkCtx env slug cfg = .ok ctx) :
    ∀ p ∈ renderBlocks ctx, ∀ (st : RState) (q : ℚ × List Op), p.2 st = .ok q →
      q.1 ≤ st.cursor ∨ (p.1 = .cta ∧ q.1 = 8 * mm - 3 * mm * ctx.scale) := by
  have hm : (0 : ℚ) < mm := mm_pos
  have hsc : 0 < ctx.scale := ctx_scale_pos hctx
  have hknn : ∀ k : ℚ, 0 ≤ k → 0 ≤ k * mm * ctx.scale := fun k hk =>
    mul_nonneg (mul_nonneg hk hm.le) hsc.le
  intro p hp st q hpq
  simp only [renderBlocks, List.mem_cons, List.not_mem_nil, or_false] at hp
  rcases hp with h | h | h | h | h | h | h | h | h | h | h | h
  · -- header
    subst h
    simp only [pureBody, Except.ok.injEq] at hpq
    subst hpq
    left
    simp only [headerBody]
    try dsimp only
    linarith [hknn 38 (by norm_num)]
  · -- badge
    subst h
    simp only [pureBody, Except.ok.injEq] at hpq
    subst hpq
    left
    simp only [badgeBody]
    split
    · dsimp only
      linarith [hknn 8 (by norm_num), hknn 5 (by norm_num)]
    · exact le_refl _
  · -- tagline
    subst h
    simp only [pureBody, Except.ok.injEq] at hpq
    subst hpq
    left
    simp only [taglineBody]
    split
    · dsimp only
      have h7 : (7 : ℚ) ≤ effSize 10 7 ctx.scale := effSize_ge_floor _ _ _
      linarith [hknn 4 (by norm_num)]
    · exact le_refl _
  · -- headline
    subst h
    simp only [pureBody, Except.ok.injEq] at hpq
    subst hpq
    left
    simp only [headlineBody]
    split
    · dsimp only
      have h12 : (12 : ℚ) ≤ effSize 22 12 ctx.scale := effSize_ge_floor _ _ _
      have hd := drawLines_cursor_le "Helvetica-Bold" (effSize 22 12 ctx.scale) margin
        (greyC (1/10)) (effSize 22 12 ctx.scale + 2) (by linarith)
        ((pyWrap ctx.cfg.headline
          (pyInt (contentW ctx / (effSize 22 12 ctx.scale * (1/2)))).toNat).take 3)
        st.cursor
      linarith [hknn 2 (by norm_num)]
    · exact le_refl _
  · -- intro
    subst h
    simp only [pureBody, Except.ok.injEq] at hpq
    subst hpq
    left
    simp only [introBody]
    split
    · dsimp only
      have h7 : (7 : ℚ) ≤ effSize 10 7 ctx.scale := effSize_ge_floor _ _ _
      have hd := drawLines_cursor_le "Helvetica" (effSize 10 7 ctx.scale) margin
        (greyC (1/5)) (effSize 10 7 ctx.scale + 2) (by linarith)
        ((pyWrap ctx.cfg.intro_text
          (pyInt (contentW ctx / (effSize 10 7 ctx.scale * (9/20)))).toNat).take 5)
        st.cursor
      linarith [hknn 3 (by norm_num)]
    · exact le_refl _
  · -- QR centerpiece
    subst h
    dsimp only at hpq
    simp only [qrBody] at hpq
    split at hpq
    · split at hpq
      · simp only [Except.ok.injEq] at hpq
        subst hpq
        left
        dsimp only
        have h9 : (9 : ℚ) ≤ effSize 13 9 ctx.scale := effSize_ge_floor _ _ _
        have h6b : (6 : ℚ) ≤ effSize 9 6 ctx.scale := effSize_ge_floor _ _ _
        have hqr : 0 ≤ min (55 * mm * ctx.scale) (55 * mm) :=
          le_min (hknn 55 (by norm_num)) (mul_nonneg (by norm_num) hm.le)
        have hprod : 0 ≤ (bulletTexts.length : ℚ) * (effSize 9 6 ctx.scale + 3) :=
          mul_nonneg (Nat.cast_nonneg _) (by linarith)
        linarith [hknn 6 (by norm_num), hknn 4 (by norm_num), hknn 5 (by norm_num)]
      · exact absurd hpq (by simp)
    · simp only [Except.ok.injEq] at hpq
      subst hpq
      left
      exact le_refl _
  · -- topics
    subst h
    dsimp only at hpq
    simp only [topicsBody] at hpq
    split at hpq
    · cases htile : topicTileOps ctx st.cursor (9 * mm * ctx.scale) (3 * mm)
          (effSize 9 6 ctx.scale) ((contentW ctx - 3 * mm) / 2) 0 (ctx.cfg.topics.take 6) with
      | error e => rw [htile] at hpq; simp [Except.map] at hpq
      | ok ops =>
        rw [htile] at hpq
        simp only [Except.map, Except.ok.injEq] at hpq
        subst hpq
        left
        dsimp only
        have htg : (0 : ℚ) ≤ 9 * mm * ctx.scale + 3 * mm := by
          have := hknn 9 (by norm_num)
          nlinarith
        have hprod : 0 ≤ ((((ctx.cfg.topics.take 6).length + 1) / 2 : ℕ) : ℚ)
            * (9 * mm * ctx.scale + 3 * mm) :=
          mul_nonneg (Nat.cast_nonneg _) htg
        linarith [hknn 3 (by norm_num)]
    · simp only [Except.ok.injEq] at hpq
      subst hpq
      left
      exact le_refl _
  · -- extra text
    subst h
    simp only [pureBody, Except.ok.injEq] at hpq
    subst hpq
    left
    simp only [extraBody]
    split
    · dsimp only
      have h6b : (6 : ℚ) ≤ effSize 9 6 ctx.scale := effSize_ge_floor _ _ _
      have hel := extraLinesGo_cursor_le ctx (effSize 9 6 ctx.scale)
        (effSize 9 6 ctx.scale + 5/2)
        (pyInt (contentW ctx / (effSize 9 6 ctx.scale * (9/20)))).toNat (by linarith)
        ((pySplitlines (pyStrip ctx.cfg.extra_text)).take 10) st.cursor
      linarith [hknn 2 (by norm_num)]
    · exact le_refl _
  · -- CTA
    subst h
    simp only [pureBody, Except.ok.injEq] at hpq
    subst hpq
    simp only [ctaBody]
    split
    · dsimp only
      split
      · right
        constructor <;> trivial
      · left
        linarith [hknn 16 (by norm_num), hknn 3 (by norm_num)]
    · left
      exact le_refl _
  · -- links
    subst h
    simp only [pureBody, Except.ok.injEq] at hpq
    subst hpq
    left
    simp only [linksBody]
    split
    · split
      · split
        · dsimp only
          have h5 : (5 : ℚ) ≤ effSize 6 5 ctx.scale := effSize_ge_floor _ _ _
          have h5b : (5 : ℚ) ≤ effSize 7 5 ctx.scale := effSize_ge_floor _ _ _
          have hlr := linkRowsDraw_cursor_le ctx (min (22 * mm * ctx.scale) (22 * mm))
            (min (22 * mm * ctx.scale) (22 * mm)) (4 * mm * ctx.scale)
            (effSize 6 5 ctx.scale) (effSize 6 5 ctx.scale + 2)
            (by
              have hq0 : 0 ≤ min (22 * mm * ctx.scale) (22 * mm) :=
                le_min (hknn 22 (by norm_num)) (mul_nonneg (by norm_num) hm.le)
              linarith [hknn 2 (by norm_num)])
            (chunkRowsGo
              (max 1 (pyInt ((contentW ctx + 4 * mm * ctx.scale)
                / (min (22 * mm * ctx.scale) (22 * mm) + 4 * mm * ctx.scale))).toNat - 1)
              (ctx.cfg.links.filter (fun l => (l.url?.getD "") ≠ "")).length
              (ctx.cfg.links.filter (fun l => (l.url?.getD "") ≠ "")))
            (st.cursor - (effSize 7 5 ctx.scale + 2 * mm * ctx.scale))
          linarith [hknn 2 (by norm_num)]
        · exact le_refl _
      · exact le_refl _
    · exact le_refl _
  · -- website URL
    subst h
    simp only [pureBody, Except.ok.injEq] at hpq
    subst hpq
    left
    simp only [urlBody]
    split
    · exact le_refl _
    · exact le_refl _
  · -- bottom bar
    subst h
    simp only [pureBody, Except.ok.injEq] at hpq
    subst hpq
    left
    exact le_refl _

/-- A string of `n` letters `a`. -/
def aStr (n : ℕ) : String := ⟨List.replicate n 'a'⟩

/-- An A6 configuration whose headline, intro, QR panel and extra text drive
the cursor far below the bottom margin before the CTA box is reached. -/
def cfg3 : FlyerConfig :=
  { page_size := "a6",
    headline := aStr 80,
    intro_text := aStr 340,
    website_url := "u",
    extra_text := String.intercalate "\n" (List.replicate 10 (aStr 160)),
    cta_text := "Go" }

/-- The cursor values before each of the 12 blocks and after the last one,
for `cfg3`. -/
def c3Trace : List ℚ := (cursorTrace testEnv "c" cfg3).toOption.getD []

set_option maxRecDepth 4096 in
/-- **C3** counterexample: in the `cfg3` render the cursor value before the
CTA block (position 8 of the trace) is BELOW the value after it (position 9):
the CTA box is pinned at `8*mm` and moves the shared cursor back up the page,
so the cursor does not only decrease. -/
theorem C3_cursor_monotone_counterexample :
    c3Trace.getD 8 0 < c3Trace.getD 9 0 := by
  with_unfolding_all decide

/-- The context of a default-configuration render. -/
def ctxW : Ctx :=
  (mkCtx testEnv "c" {}).toOption.getD ⟨testEnv, "c", {}, 1, 1, 1, (0, 0, 0)⟩

/-- Witness for `C3_cursor_monotone`: the header block of a default render
does not raise the cursor. -/
theorem C3_cursor_monotone_witness :
    (headerBody ctxW (initState ctxW)).1 ≤ (initState ctxW).cursor ∨
      ((BlockId.header, pureBody (headerBody ctxW)).1 = BlockId.cta ∧
        (headerBody ctxW (initState ctxW)).1 = 8 * mm - 3 * mm * ctxW.scale) :=
  C3_cursor_monotone testEnv "c" {} ctxW (by with_unfolding_all rfl)
    (BlockId.header, pureBody (headerBody ctxW)) (by exact List.mem_cons_self _ _)
    (initState ctxW) (headerBody ctxW (initState ctxW)) rfl

/-! ## Claim C1: error containment -/

/-- **C1** (amended).  Asset-level failures never escape `generate_flyer_pdf`:
for every environment — hence every behaviour of the filesystem, of the image
loaders and of `drawImage` — the renderer returns a finalized document,
provided the inputs avoid the two genuinely uncaught exceptions: the theme and
topic color strings parse in `_hex_to_rgb`, and the centerpiece QR payload is
encodable.  (As frozen the claim is false: those two content-level exceptions
do propagate to the caller.) -/
theorem C1_error_containment (env : Env) (slug : String) (cfg : FlyerConfig)
    (h1 : hexParses cfg.theme_color = true)
    (h2 : cfg.show_topics = true → ∀ t ∈ cfg.topics.take 6,
      hexParses (t.color?.getD cfg.theme_color) = true)
    (h3 : cfg.show_qr = true → cfg.website_url ≠ "" →
      env.qrOk cfg.website_url = true) :
    renderOk (generateFlyer env slug cfg) = true := by
  obtain ⟨ctx, st, _, _, hgen⟩ := generateFlyer_ok_of env slug cfg h1 h2 h3
  rw [hgen]
  rfl

/-- Witness for `C1_error_containment`: the default configuration in the test
environment renders successfully. -/
theorem C1_error_containment_witness :
    renderOk (generateFlyer testEnv "c" {}) = true :=
  C1_error_containment testEnv "c" {} (by decide)
    (fun _ t ht => by simp at ht) (fun _ h => absurd rfl h)

/-- **C1** counterexample: a six-character non-hex theme color raises an
uncaught `ValueError` out of `_hex_to_rgb`, and a payload the QR encoder
rejects raises an uncaught data-overflow error at the centerpiece
`_make_qr_image` call — both content-level problems propagate to the caller. -/
theorem C1_error_containment_counterexample :
    generateFlyer testEnv "c" { theme_color := "zzzzzz" } = .error (.badHex "zzzzzz") ∧
    generateFlyer { testEnv with qrOk := fun _ => false } "c"
        { website_url := "https://x.example" }
      = .error (.qrOverflow "https://x.example") := by
  constructor
  · with_unfolding_all rfl
  · with_unfolding_all rfl

/-! ## Claim C2: determinism of the serialized bytes -/

/-- **C2** (amended).  The rendered page content is a function of the inputs
alone, and the serialized bytes of two calls with identical inputs agree when
their wall-clock save times agree.  (As frozen the claim is false: the canvas
is created without `invariant=1` and reportlab's `rl_config.invariant`
defaults to 0, so the saved bytes embed a creation timestamp taken at save
time.) -/
theorem C2_byte_determinism (env : Env) (slug : String) (cfg : FlyerConfig)
    (n1 n2 : ℕ) :
    (generateFlyerBytes env n1 slug cfg).map SerializedPdf.content
      = (generateFlyerBytes env n2 slug cfg).map SerializedPdf.content ∧
    (n1 = n2 → generateFlyerBytes env n1 slug cfg = generateFlyerBytes env n2 slug cfg) := by
  constructor
  · unfold generateFlyerBytes
    cases generateFlyer env slug cfg <;> rfl
  · intro h
    rw [h]

/-- Witness for `C2_byte_determinism` at the default configuration, save
times 5 and 7. -/
theorem C2_byte_determinism_witness :
    (generateFlyerBytes testEnv 5 "c" {}).map SerializedPdf.content
      = (generateFlyerBytes testEnv 7 "c" {}).map SerializedPdf.content ∧
    generateFlyerBytes testEnv 5 "c" {} = generateFlyerBytes testEnv 5 "c" {} :=
  ⟨(C2_byte_determinism testEnv "c" {} 5 7).1,
   (C2_byte_determinism testEnv "c" {} 5 5).2 rfl⟩

/-- **C2** counterexample: identical inputs serialized at wall-clock times 0
and 1 give different bytes, although the page content is identical — the
difference is exactly the embedded save-time stamp. -/
theorem C2_byte_determinism_counterexample :
    generateFlyerBytes testEnv 0 "c" {} ≠ generateFlyerBytes testEnv 1 "c" {} ∧
    (generateFlyerBytes testEnv 0 "c" {}).map SerializedPdf.content
      = (generateFlyerBytes testEnv 1 "c" {}).map SerializedPdf.content := by
  constructor
  · intro h
    have h0 : ∀ n : ℕ,
        (generateFlyerBytes testEnv n "c" {}).map SerializedPdf.creationStamp = .ok n := by
      intro n
      obtain ⟨ctx, st, _, _, hgen⟩ := generateFlyer_ok_of testEnv "c" {} (by decide)
        (fun _ t ht => by simp at ht) (fun _ hh => absurd rfl hh)
      simp only [generateFlyerBytes, hgen]
      rfl
    have h01 := (h0 0).symm.trans
      ((congrArg (Except.map SerializedPdf.creationStamp) h).trans (h0 1))
    simp at h01
  · unfold generateFlyerBytes
    cases generateFlyer testEnv "c" {} <;> rfl

end Flyer
